import Mathlib

/-!
TalentFlow mock API and seed generator

A shallow embedding of `src/services/mockapi.js` (the request handlers and the
network simulator) and of the timeline derivation of `src/services/database.js`.

Modelling conventions.

* A table of the local store is the list of its records in primary-key order; keys are
  natural numbers handed out by the auto-increment generator (largest key so far plus one).
* A field that a JavaScript record may lack is an `Option`; a request body is a record of
  optional typed fields (`none` = the field is absent).  Fields that are not listed, among
  them a primary key supplied by the client, are not modelled.
* Dates are integers (milliseconds since the epoch).  JavaScript numbers that the handlers
  compute with are integers.
* A field that a handler tests for truthiness (`slug`, `status`, `stage`, `notes`) holds a
  JSON scalar (`Json`: `null`, a boolean, an integer or a string), in the request body and in
  the stored record alike; arrays and objects in these fields are not modelled.
* Strings are compared as JavaScript and the store compare them, by UTF-16 code units; the
  platform's `toLowerCase` is a component of the environment.
* Everything a handler takes from outside the request is collected in `Env`: the draws of
  `Math.random()`, the clock, and an oracle telling which store operation of the handler
  rejects (the store is an asynchronous database, every call on it may reject).
* An asynchronous computation is a function from the store to a settled promise
  (`Except String α`: resolved with a value or rejected with an error message) together
  with the store as the computation leaves it.
-/

namespace TalentFlow

/-! ## JSON values and index keys -/

/-- A JSON scalar, as a field of a request body or of a stored record may hold it. -/
inductive Json where
  | null
  | bool (b : Bool)
  | num (n : Int)
  | str (s : String)
deriving DecidableEq, Repr

/-- Truthiness of a JavaScript value: `null`, `false`, `0` and `''` are falsy. -/
def Json.truthy : Json → Bool
  | .null => false
  | .bool b => b
  | .num n => n != 0
  | .str s => s != ""

/-- Truthiness of a field that may be absent (`undefined` is falsy). -/
def truthyField (v : Option Json) : Bool :=
  match v with
  | some w => w.truthy
  | none => false

/-- The text of a value inside a template literal. -/
def Json.text : Json → String
  | .null => "null"
  | .bool true => "true"
  | .bool false => "false"
  | .num n => toString n
  | .str s => s

/-- UTF-16 code units of a string, the units a JavaScript string is made of. -/
def codeUnits (s : String) : List Nat :=
  s.data.flatMap fun c =>
    if c.toNat < 65536 then [c.toNat]
    else [55296 + (c.toNat - 65536) / 1024, 56320 + (c.toNat - 65536) % 1024]

/-- Lexicographic comparison, a proper prefix first. -/
def lexLt {α : Type} [DecidableEq α] (lt : α → α → Bool) : List α → List α → Bool
  | [], [] => false
  | [], _ :: _ => true
  | _ :: _, [] => false
  | a :: as, b :: bs => lt a b || (decide (a = b) && lexLt lt as bs)

/-- A key of an index of the store: a number (a date counts by its time value), a string
(its code units) or an array of strings. -/
inductive Key where
  | num (n : Int)
  | str (units : List Nat)
  | arr (items : List (List Nat))
deriving DecidableEq, Repr

/-- Order of the keys in an index: numbers before strings before arrays; numbers by value,
strings by code units, arrays item by item. -/
def Key.lt : Key → Key → Bool
  | .num a, .num b => decide (a < b)
  | .num _, .str _ => true
  | .num _, .arr _ => true
  | .str _, .num _ => false
  | .str a, .str b => lexLt (fun x y => decide (x < y)) a b
  | .str _, .arr _ => true
  | .arr _, .num _ => false
  | .arr _, .str _ => false
  | .arr a, .arr b => lexLt (lexLt fun x y => decide (x < y)) a b

/-- The key of a value, when it is a valid key: numbers and strings are, `null` and booleans
are not. -/
def Json.key : Json → Option Key
  | .num n => some (.num n)
  | .str s => some (.str (codeUnits s))
  | _ => none

/-! ## Data model (`database.js`, schema) -/

structure Job where
  id : Nat
  title : Option String
  slug : Option Json
  status : Json
  tags : Option (List String)
  order : Int
  createdAt : Int
  updatedAt : Option Int
  description : Option String
deriving DecidableEq, Repr

structure Candidate where
  id : Nat
  name : Option String
  email : Option String
  stage : Json
  jobId : Nat
  createdAt : Int
  updatedAt : Int
  notes : Option Json
deriving DecidableEq, Repr

structure TimelineEntry where
  id : Nat
  candidateId : Nat
  stage : Json
  timestamp : Int
  notes : Json
deriving DecidableEq, Repr

structure Assessment where
  id : Nat
  jobId : Nat
  title : Option String
  sections : Option (List String)
  createdAt : Option Int
  updatedAt : Option Int
deriving DecidableEq, Repr

structure AssessmentResponse where
  id : Nat
  assessmentId : Nat
  candidateId : Option Nat
  responses : Option (List String)
  submittedAt : Int
  score : Int
deriving DecidableEq, Repr

structure User where
  id : Nat
  email : String
  password : String
  role : String
  name : String
deriving DecidableEq, Repr

structure Store where
  jobs : List Job
  candidates : List Candidate
  candidateTimeline : List TimelineEntry
  assessments : List Assessment
  assessmentResponses : List AssessmentResponse
  users : List User
deriving DecidableEq, Repr

/-! ## Environment and asynchronous computations -/

structure Env where
  /-- second `Math.random()` of `simulateNetworkDelay` (`shouldError`) -/
  errorDraw : ℚ
  /-- third `Math.random()` of `simulateNetworkDelay` (drawn in the timer callback) -/
  retryDraw : ℚ
  /-- value of `Math.floor(Math.random() * 40)` in the submit handler -/
  scoreDraw : Nat
  /-- the clock: `new Date()` and `Date.now()` -/
  now : Int
  /-- whether the n-th store operation of the running handler rejects -/
  dbFault : Nat → Bool
  /-- the platform's `String.prototype.toLowerCase` -/
  toLowerCase : String → String

/-- An asynchronous computation over the store. -/
def Async (α : Type) : Type := Store → Except String α × Store

def Async.pure {α : Type} (a : α) : Async α := fun s => (.ok a, s)

def Async.bind {α β : Type} (x : Async α) (f : α → Async β) : Async β := fun s =>
  match x s with
  | (.ok a, s') => f a s'
  | (.error e, s') => (.error e, s')

instance : Monad Async where
  pure := Async.pure
  bind := Async.bind

/-- A rejected promise / thrown error. -/
def Async.fail {α : Type} (e : String) : Async α := fun s => (.error e, s)

def getStore : Async Store := fun s => (.ok s, s)

def setStore (s' : Store) : Async Unit := fun _ => (.ok (), s')

/-- Payload of a response (`ctx.json(...)`). -/
inductive Body where
  | message (text : String)
  | success
  | job (j : Option Job)
  | jobPage (jobs : List Job) (page pageSize : Int) (total : Nat) (totalPages : Option Int)
  | candidate (c : Candidate) (job : Option Job)
  | candidatePage (cs : List (Candidate × Option Job)) (page pageSize : Int) (total : Nat)
      (totalPages : Option Int)
  | timeline (es : List TimelineEntry)
  | assessment (a : Option Assessment)
  | login (success : Bool) (user : Option User) (tokenUser : Option Nat) (tokenTime : Option Int)
  | submitted (id : Nat)
deriving DecidableEq, Repr

structure Response where
  status : Nat
  body : Body
deriving DecidableEq, Repr

/-- What a handler hands back: a response, or an error that escaped the handler. -/
abbrev Outcome := Except String Response

deriving instance DecidableEq for Except

/-- The code `try { body } catch (error) { return handler(error) }`. -/
def tryCatch (body : Async Response) (handler : String → Response) : Store → Outcome × Store :=
  fun s =>
    match body s with
    | (.ok r, s') => (.ok r, s')
    | (.error e, s') => (.ok (handler e), s')

/-- A handler body that is not wrapped in `try`: a rejection escapes. -/
def noCatch (body : Async Response) : Store → Outcome × Store := fun s => body s

/-- The code `await req.json()`: rejects when the body cannot be read. -/
def reqJson {α : Type} (body : Option α) : Async α :=
  match body with
  | some b => Async.pure b
  | none => Async.fail "Unexpected end of JSON input"

/-- Entry of a store operation: rejects when the oracle says so. -/
def dbOp (env : Env) (n : Nat) : Async Unit := fun s =>
  if env.dbFault n then (.error "store operation failed", s) else (.ok (), s)

/-! ## Network simulator (`mockapi.js`, `simulateNetworkDelay`) -/

/-- Whether `simulateNetworkDelay` rejects, from its second and third draw:
`shouldError = Math.random() < 0.1`, then `shouldError && Math.random() > 0.7`. -/
def simulateNetworkDelay.rejects {K : Type} [LinearOrderedField K] (u₂ u₃ : K) : Bool :=
  let shouldError := decide (u₂ < 1 / 10)
  shouldError && decide (u₃ > 7 / 10)

def simulateNetworkDelay (env : Env) : Async Unit := fun s =>
  if simulateNetworkDelay.rejects env.errorDraw env.retryDraw then
    (.error "Simulated network error", s)
  else (.ok (), s)

/-! ## Store primitives -/

/-- Next key of the auto-increment generator. -/
def nextKey (keys : List Nat) : Nat := keys.foldl max 0 + 1

/-- JavaScript `findIndex` (`none` for `-1`). -/
def findIndex {α : Type} (p : α → Bool) : List α → Option Nat
  | [] => none
  | x :: xs => if p x then some 0 else (findIndex p xs).map (· + 1)

/-- Index order of `jobs.orderBy('order')`: by `order`, ties by primary key. -/
def jobOrderLE (a b : Job) : Prop := a.order < b.order ∨ (a.order = b.order ∧ a.id ≤ b.id)

instance : DecidableRel jobOrderLE := fun a b =>
  inferInstanceAs (Decidable (a.order < b.order ∨ (a.order = b.order ∧ a.id ≤ b.id)))

def orderByOrder (jobs : List Job) : List Job := jobs.insertionSort jobOrderLE

/-- The call `db.jobs.update(id, changes)`: merges into the record with that key, if any. -/
def updateJobRecord (jobs : List Job) (id : Nat) (f : Job → Job) : List Job :=
  jobs.map fun j => if j.id = id then f j else j

def dbJobsOrderByOrder (env : Env) (n : Nat) : Async (List Job) := do
  dbOp env n
  let s ← getStore
  pure (orderByOrder s.jobs)

/-- The call `db.jobs.where('slug').equals(slug).first()`; the query rejects when the slug
is absent or not a valid key. -/
def dbJobsWhereSlugFirst (env : Env) (n : Nat) (slug : Option Json) : Async (Option Job) := do
  dbOp env n
  match slug with
  | none => Async.fail "Invalid key provided"
  | some v =>
    if v.key.isSome then
      let s ← getStore
      pure (s.jobs.find? fun j => j.slug == some v)
    else Async.fail "Invalid key provided"

/-- The call `db.jobs.orderBy('order').last()`. -/
def dbJobsOrderByOrderLast (env : Env) (n : Nat) : Async (Option Job) := do
  dbOp env n
  let s ← getStore
  pure (orderByOrder s.jobs).getLast?

def dbJobsAdd (env : Env) (n : Nat) (mk : Nat → Job) : Async Nat := do
  dbOp env n
  let s ← getStore
  let id := nextKey (s.jobs.map Job.id)
  setStore { s with jobs := s.jobs ++ [mk id] }
  pure id

def dbJobsGet (env : Env) (n : Nat) (id : Nat) : Async (Option Job) := do
  dbOp env n
  let s ← getStore
  pure (s.jobs.find? fun j => j.id == id)

def dbJobsUpdate (env : Env) (n : Nat) (id : Nat) (f : Job → Job) : Async Unit := do
  dbOp env n
  let s ← getStore
  setStore { s with jobs := updateJobRecord s.jobs id f }

/-- The loop `for (const update of updates) db.jobs.update(update.id, { order: update.order })`. -/
def applyOrderUpdates (updates : List (Nat × Int)) (jobs : List Job) : List Job :=
  updates.foldl (fun t u => updateJobRecord t u.1 fun j => { j with order := u.2 }) jobs

/-- The transaction of the reorder handler: every update is applied, or none is. -/
def dbJobsOrderTransaction (env : Env) (n : Nat) (updates : List (Nat × Int)) : Async Unit := do
  dbOp env n
  let s ← getStore
  setStore { s with jobs := applyOrderUpdates updates s.jobs }

/-! ## Job handlers (`mockapi.js`) -/

structure JobData where
  title : Option String
  slug : Option Json
  status : Option Json
  tags : Option (List String)
  description : Option String
deriving DecidableEq, Repr

/-- The expression `maxOrder ? maxOrder.order + 1 : 0`. -/
def newJobOrder (maxOrder : Option Job) : Int :=
  match maxOrder with
  | some m => m.order + 1
  | none => 0

/-- The record `{ ...jobData, order: newOrder, createdAt: new Date(),
status: jobData.status || 'active' }` under the key the store gives it. -/
def newJobRecord (env : Env) (jobData : JobData) (newOrder : Int) (id : Nat) : Job :=
  { id := id, title := jobData.title, slug := jobData.slug,
    status := match jobData.status with
      | some v => if v.truthy then v else .str "active"
      | none => .str "active",
    tags := jobData.tags, order := newOrder, createdAt := env.now,
    updatedAt := none, description := jobData.description }

/-- Handler `POST /api/jobs`, the body of its `try`. -/
def createJobTry (env : Env) (body : Option JobData) : Async Response := do
  simulateNetworkDelay env
  let jobData ← reqJson body
  let existingJob ← dbJobsWhereSlugFirst env 0 jobData.slug
  if existingJob.isSome then
    pure ⟨400, .message "Job with this slug already exists"⟩
  else
    let maxOrder ← dbJobsOrderByOrderLast env 1
    let newOrder := newJobOrder maxOrder
    let id ← dbJobsAdd env 2 (newJobRecord env jobData newOrder)
    let createdJob ← dbJobsGet env 3 id
    pure ⟨200, .job createdJob⟩

def createJob (env : Env) (body : Option JobData) : Store → Outcome × Store :=
  tryCatch (createJobTry env body)
    fun e => ⟨500, .message ("Failed to create job: " ++ e)⟩

structure ReorderBody where
  fromOrder : Option Int
  toOrder : Option Int
deriving DecidableEq, Repr

/-- The expression `fromOrder < toOrder ? toOrder - 1 : toOrder`
(`none` is `undefined`; a comparison with `undefined` is false). -/
def reorderNewIndex (fromOrder toOrder : Option Int) : Option Int :=
  match fromOrder, toOrder with
  | some f, some t => if f < t then some (t - 1) else some t
  | _, t => t

/-- Start position of `Array.prototype.splice` on an array of length `len`. -/
def spliceStart (len : Nat) (start : Option Int) : Nat :=
  match start with
  | none => 0
  | some k => if k < 0 then (len + k).toNat else min k.toNat len

/-- The call `xs.splice(start, 0, x)`. -/
def spliceInsert {α : Type} (xs : List α) (start : Option Int) (x : α) : List α :=
  let k := spliceStart xs.length start
  xs.take k ++ x :: xs.drop k

/-- The call `jobs.map((job, index) => ({ id: job.id, order: index }))`. -/
def orderUpdates (jobs : List Job) : List (Nat × Int) :=
  jobs.enum.map fun p => (p.2.id, (p.1 : Int))

/-- Handler `PATCH /api/jobs/:id/reorder`, the body of its `try`. -/
def reorderJobTry (env : Env) (id : Nat) (body : Option ReorderBody) : Async Response := do
  simulateNetworkDelay env
  let b ← reqJson body
  let jobs ← dbJobsOrderByOrder env 0
  match findIndex (fun job => job.id == id) jobs with
  | none => Async.fail "Job not found"
  | some movingJobIndex =>
    match jobs[movingJobIndex]? with
    | none => Async.fail "Job not found"
    | some movingJob =>
      let jobs₁ := jobs.eraseIdx movingJobIndex
      let newIndex := reorderNewIndex b.fromOrder b.toOrder
      let jobs₂ := spliceInsert jobs₁ newIndex movingJob
      let updates := orderUpdates jobs₂
      dbJobsOrderTransaction env 1 updates
      pure ⟨200, .success⟩

def reorderJob (env : Env) (id : Nat) (body : Option ReorderBody) : Store → Outcome × Store :=
  tryCatch (reorderJobTry env id body)
    fun e => ⟨500, .message ("Failed to reorder job: " ++ e)⟩

structure JobUpdates where
  title : Option String
  slug : Option Json
  status : Option Json
  tags : Option (List String)
  order : Option Int
  description : Option String
deriving DecidableEq, Repr

/-- The merge of `{ ...updates, updatedAt: new Date() }` into a job record. -/
def mergeJobUpdates (env : Env) (updates : JobUpdates) (j : Job) : Job :=
  { j with
    title := match updates.title with
      | some v => some v
      | none => j.title,
    slug := match updates.slug with
      | some v => some v
      | none => j.slug,
    status := updates.status.getD j.status,
    tags := match updates.tags with
      | some v => some v
      | none => j.tags,
    order := updates.order.getD j.order,
    description := match updates.description with
      | some v => some v
      | none => j.description,
    updatedAt := some env.now }

/-- The call
`db.jobs.where('slug').equals(slug).and(job => job.id !== id).first()`; the query rejects
when the slug is not a valid key. -/
def dbJobsWhereSlugOtherFirst (env : Env) (n : Nat) (slug : Json) (id : Nat) :
    Async (Option Job) := do
  dbOp env n
  if slug.key.isSome then
    let s ← getStore
    pure (s.jobs.find? fun j => j.slug == some slug && j.id != id)
  else Async.fail "Invalid key provided"

/-- Truthiness of an optional string of the query (`null` and `''` are falsy). -/
def truthy (v : Option String) : Bool :=
  match v with
  | some w => w != ""
  | none => false

/-- Handler `PATCH /api/jobs/:id`, the body of its `try`. -/
def updateJobTry (env : Env) (id : Nat) (body : Option JobUpdates) : Async Response := do
  simulateNetworkDelay env
  let updates ← reqJson body
  let existingJob ←
    if truthyField updates.slug then
      dbJobsWhereSlugOtherFirst env 0 (updates.slug.getD .null) id
    else pure none
  if existingJob.isSome then
    pure ⟨400, .message "Job with this slug already exists"⟩
  else
    dbJobsUpdate env 1 id (mergeJobUpdates env updates)
    let updatedJob ← dbJobsGet env 2 id
    pure ⟨200, .job updatedJob⟩

def updateJob (env : Env) (id : Nat) (body : Option JobUpdates) : Store → Outcome × Store :=
  tryCatch (updateJobTry env id body)
    fun e => ⟨500, .message ("Failed to update job: " ++ e)⟩

/-! ### Listing jobs -/

structure JobsQuery where
  search : Option String
  status : Option String
  page : Option Int
  pageSize : Option Int
  sort : Option String
deriving DecidableEq, Repr

/-- The test `text.includes(part)`: the code units of `part` occur in a row in `text`. -/
def includes (text part : String) : Bool := decide (codeUnits part <:+: codeUnits text)

/-- Order of the entries (key, record) of an index: by key, ties by primary key. -/
def entryLE (p q : Key × Job) : Prop := Key.lt p.1 q.1 = true ∨ (p.1 = q.1 ∧ p.2.id ≤ q.2.id)

instance : DecidableRel entryLE := fun p q =>
  inferInstanceAs (Decidable (Key.lt p.1 q.1 = true ∨ (p.1 = q.1 ∧ p.2.id ≤ q.2.id)))

/-- Traversal of an index: the records that have a valid key there, in the order of the
index. -/
def sortByKey (key : Job → Option Key) (jobs : List Job) : List Job :=
  ((jobs.filterMap fun j => (key j).map fun k => (k, j)).insertionSort entryLE).map Prod.snd

/-- The traversal `db.jobs.orderBy(sort)` over the indexes of the schema
(`jobs: '++id, title, slug, status, tags, order, createdAt'`); a field that is not indexed
makes the query reject. -/
def orderBy (sort : String) (jobs : List Job) : Except String (List Job) :=
  if sort = "order" then .ok (orderByOrder jobs)
  else if sort = "id" then .ok (sortByKey (fun j => some (.num j.id)) jobs)
  else if sort = "title" then
    .ok (sortByKey (fun j => j.title.map fun t => .str (codeUnits t)) jobs)
  else if sort = "slug" then .ok (sortByKey (fun j => j.slug.bind Json.key) jobs)
  else if sort = "status" then .ok (sortByKey (fun j => j.status.key) jobs)
  else if sort = "tags" then
    .ok (sortByKey (fun j => j.tags.map fun ts => .arr (ts.map codeUnits)) jobs)
  else if sort = "createdAt" then .ok (sortByKey (fun j => some (.num j.createdAt)) jobs)
  else .error ("KeyPath " ++ sort ++ " on object store jobs is not indexed")

/-- The predicate `job.title.toLowerCase().includes(search.toLowerCase()) ||
job.tags.some(tag => tag.toLowerCase().includes(search.toLowerCase()))`; reading a
property of `undefined` throws. -/
def jobMatchesSearch (env : Env) (search : String) (job : Job) : Except String Bool :=
  match job.title with
  | none => .error "Cannot read properties of undefined (reading 'toLowerCase')"
  | some title =>
    if includes (env.toLowerCase title) (env.toLowerCase search) then .ok true
    else match job.tags with
      | none => .error "Cannot read properties of undefined (reading 'some')"
      | some tags =>
        .ok (tags.any fun tag => includes (env.toLowerCase tag) (env.toLowerCase search))

/-- Filtering with a predicate that may throw: the first throw ends the traversal. -/
def filterThrowing {α : Type} (p : α → Except String Bool) : List α → Except String (List α)
  | [] => .ok []
  | x :: xs =>
    match p x with
    | .error e => .error e
    | .ok keep =>
      match filterThrowing p xs with
      | .error e => .error e
      | .ok rest => .ok (if keep then x :: rest else rest)

/-- The query of `GET /api/jobs` as `toArray()` runs it: sort, search filter, status filter. -/
def jobsQuery (env : Env) (q : JobsQuery) (jobs : List Job) : Except String (List Job) :=
  match orderBy (if truthy q.sort then q.sort.getD "" else "order") jobs with
  | .error e => .error e
  | .ok sorted =>
    match (if truthy q.search then
        filterThrowing (jobMatchesSearch env (q.search.getD "")) sorted
        else .ok sorted) with
    | .error e => .error e
    | .ok found =>
      .ok (if truthy q.status then found.filter fun job => job.status = .str (q.status.getD "")
        else found)

def dbJobsQuery (env : Env) (n : Nat) (q : JobsQuery) : Async (List Job) := do
  dbOp env n
  let s ← getStore
  match jobsQuery env q s.jobs with
  | .ok jobs => pure jobs
  | .error e => Async.fail e

/-- Relative index of `Array.prototype.slice` on an array of length `len`. -/
def sliceIndex (len : Nat) (k : Int) : Nat :=
  if k < 0 then (len + k).toNat else min k.toNat len

/-- The call `xs.slice(start, end)`. -/
def slice {α : Type} (xs : List α) (start stop : Int) : List α :=
  (xs.take (sliceIndex xs.length stop)).drop (sliceIndex xs.length start)

/-- The value `Math.ceil(total / pageSize)` as it is serialised: a division by zero gives
`Infinity` or `NaN`, which JSON writes as `null`. -/
def totalPages (total : Nat) (pageSize : Int) : Option Int :=
  if pageSize = 0 then none else some ⌈(total : ℚ) / (pageSize : ℚ)⌉

/-- Handler `GET /api/jobs` (no `try`). -/
def getJobsBody (env : Env) (q : JobsQuery) : Async Response := do
  let page := q.page.getD 1
  let pageSize := q.pageSize.getD 10
  let jobs ← dbJobsQuery env 0 q
  let total := jobs.length
  let startIndex := (page - 1) * pageSize
  let paginatedJobs := slice jobs startIndex (startIndex + pageSize)
  pure ⟨200, .jobPage paginatedJobs page pageSize total (totalPages total pageSize)⟩

def getJobs (env : Env) (q : JobsQuery) : Store → Outcome × Store :=
  noCatch (getJobsBody env q)

/-! ## Candidate handlers -/

structure CandidatesQuery where
  search : Option String
  stage : Option String
  page : Option Int
  pageSize : Option Int
deriving DecidableEq, Repr

/-- Index order of `candidates.orderBy('createdAt').reverse()`: newest first. -/
def candidateNewerFirst (a b : Candidate) : Prop :=
  b.createdAt < a.createdAt ∨ (b.createdAt = a.createdAt ∧ b.id ≤ a.id)

instance : DecidableRel candidateNewerFirst := fun a b =>
  inferInstanceAs (Decidable (b.createdAt < a.createdAt ∨ (b.createdAt = a.createdAt ∧ b.id ≤ a.id)))

/-- The predicate `candidate.name.toLowerCase().includes(searchLower) ||
candidate.email.toLowerCase().includes(searchLower)`. -/
def candidateMatchesSearch (env : Env) (searchLower : String) (c : Candidate) :
    Except String Bool :=
  match c.name with
  | none => .error "Cannot read properties of undefined (reading 'toLowerCase')"
  | some name =>
    if includes (env.toLowerCase name) searchLower then .ok true
    else match c.email with
      | none => .error "Cannot read properties of undefined (reading 'toLowerCase')"
      | some email => .ok (includes (env.toLowerCase email) searchLower)

def dbCandidatesNewestFirst (env : Env) (n : Nat) : Async (List Candidate) := do
  dbOp env n
  let s ← getStore
  pure (s.candidates.insertionSort candidateNewerFirst)

/-- The lookups `Promise.all(paginatedCandidates.map(async c => db.jobs.get(c.jobId)))`;
the lookup for the i-th candidate is store operation `n + i`. -/
def joinJobs (env : Env) (n : Nat) : List Candidate → Async (List (Candidate × Option Job))
  | [] => pure []
  | c :: cs => do
    let job ← dbJobsGet env n c.jobId
    let rest ← joinJobs env (n + 1) cs
    pure ((c, job) :: rest)

/-- Handler `GET /api/candidates` (no `try`). -/
def getCandidatesBody (env : Env) (q : CandidatesQuery) : Async Response := do
  let page := q.page.getD 1
  let pageSize := q.pageSize.getD 50
  let all ← dbCandidatesNewestFirst env 0
  let found ←
    if truthy q.search then
      match filterThrowing
          (candidateMatchesSearch env (env.toLowerCase (q.search.getD ""))) all with
      | .ok cs => pure cs
      | .error e => Async.fail e
    else pure all
  let candidates :=
    if truthy q.stage then found.filter fun c => c.stage = .str (q.stage.getD "") else found
  let total := candidates.length
  let startIndex := (page - 1) * pageSize
  let paginatedCandidates := slice candidates startIndex (startIndex + pageSize)
  let candidatesWithJobs ← joinJobs env 1 paginatedCandidates
  pure ⟨200, .candidatePage candidatesWithJobs page pageSize total (totalPages total pageSize)⟩

def getCandidates (env : Env) (q : CandidatesQuery) : Store → Outcome × Store :=
  noCatch (getCandidatesBody env q)

def dbCandidatesGet (env : Env) (n : Nat) (id : Nat) : Async (Option Candidate) := do
  dbOp env n
  let s ← getStore
  pure (s.candidates.find? fun c => c.id == id)

/-- Handler `GET /api/candidates/:id` (no `try`). -/
def getCandidateBody (env : Env) (id : Nat) : Async Response := do
  let candidate ← dbCandidatesGet env 0 id
  match candidate with
  | none => pure ⟨404, .message "Candidate not found"⟩
  | some c =>
    let job ← dbJobsGet env 1 c.jobId
    pure ⟨200, .candidate c job⟩

def getCandidate (env : Env) (id : Nat) : Store → Outcome × Store :=
  noCatch (getCandidateBody env id)

structure CandidateUpdates where
  name : Option String
  email : Option String
  stage : Option Json
  jobId : Option Nat
  notes : Option Json
deriving DecidableEq, Repr

/-- The merge of `{ ...updates, updatedAt: new Date() }` into a candidate record. -/
def mergeCandidateUpdates (env : Env) (updates : CandidateUpdates) (c : Candidate) : Candidate :=
  { c with
    name := match updates.name with
      | some v => some v
      | none => c.name,
    email := match updates.email with
      | some v => some v
      | none => c.email,
    stage := updates.stage.getD c.stage,
    jobId := updates.jobId.getD c.jobId,
    notes := match updates.notes with
      | some v => some v
      | none => c.notes,
    updatedAt := env.now }

def dbCandidatesUpdate (env : Env) (n : Nat) (id : Nat) (f : Candidate → Candidate) :
    Async Unit := do
  dbOp env n
  let s ← getStore
  setStore { s with candidates := s.candidates.map fun c => if c.id = id then f c else c }

def dbTimelineAdd (env : Env) (n : Nat) (mk : Nat → TimelineEntry) : Async Nat := do
  dbOp env n
  let s ← getStore
  let id := nextKey (s.candidateTimeline.map TimelineEntry.id)
  setStore { s with candidateTimeline := s.candidateTimeline ++ [mk id] }
  pure id

/-- The timeline record that the update handler adds on a stage change. -/
def stageChangeEntry (env : Env) (candidateId : Nat) (oldStage newStage : Json)
    (notes : Option Json) (id : Nat) : TimelineEntry :=
  { id := id, candidateId := candidateId, stage := newStage, timestamp := env.now,
    notes := if truthyField notes then notes.getD .null
      else .str ("Stage updated from " ++ oldStage.text ++ " to " ++ newStage.text) }

/-- Handler `PATCH /api/candidates/:id`, the body of its `try`. -/
def updateCandidateTry (env : Env) (id : Nat) (body : Option CandidateUpdates) :
    Async Response := do
  simulateNetworkDelay env
  let updates ← reqJson body
  let candidate ← dbCandidatesGet env 0 id
  match candidate with
  | none => pure ⟨404, .message "Candidate not found"⟩
  | some c =>
    let oldStage := c.stage
    dbCandidatesUpdate env 1 id (mergeCandidateUpdates env updates)
    if truthyField updates.stage && updates.stage.getD .null != oldStage then
      let _ ← dbTimelineAdd env 2
        (stageChangeEntry env id oldStage (updates.stage.getD .null) updates.notes)
    let updatedCandidate ← dbCandidatesGet env 3 id
    match updatedCandidate with
    | none => Async.fail "Cannot read properties of undefined (reading 'jobId')"
    | some u =>
      let job ← dbJobsGet env 4 u.jobId
      pure ⟨200, .candidate u job⟩

def updateCandidate (env : Env) (id : Nat) (body : Option CandidateUpdates) :
    Store → Outcome × Store :=
  tryCatch (updateCandidateTry env id body)
    fun e => ⟨500, .message ("Failed to update candidate: " ++ e)⟩

/-- Handler `GET /api/candidates/:id/timeline` (no `try`).  The expression
`db.candidateTimeline.where('candidateId').equals(parseInt(id))` is a collection of the
store, and a collection has no method `orderBy` (a table has): the call throws a
`TypeError` on every request, before the store is read. -/
def getTimelineBody (_env : Env) (_id : Nat) : Async Response :=
  Async.fail "db.candidateTimeline.where(...).equals(...).orderBy is not a function"

def getTimeline (env : Env) (id : Nat) : Store → Outcome × Store :=
  noCatch (getTimelineBody env id)

/-! ## Assessment handlers -/

/-- The call `db.assessments.where('jobId').equals(jobId).first()`. -/
def dbAssessmentsWhereJobFirst (env : Env) (n : Nat) (jobId : Nat) :
    Async (Option Assessment) := do
  dbOp env n
  let s ← getStore
  pure (s.assessments.find? fun a => a.jobId == jobId)

/-- Handler `GET /api/assessments/:jobId` (no `try`). -/
def getAssessmentBody (env : Env) (jobId : Nat) : Async Response := do
  let assessment ← dbAssessmentsWhereJobFirst env 0 jobId
  pure ⟨200, .assessment assessment⟩

def getAssessment (env : Env) (jobId : Nat) : Store → Outcome × Store :=
  noCatch (getAssessmentBody env jobId)

structure AssessmentData where
  jobId : Option Nat
  title : Option String
  sections : Option (List String)
deriving DecidableEq, Repr

/-- The merge of `{ ...assessmentData, updatedAt: new Date() }` into an assessment record. -/
def mergeAssessmentData (env : Env) (data : AssessmentData) (a : Assessment) : Assessment :=
  { a with
    jobId := data.jobId.getD a.jobId,
    title := match data.title with
      | some v => some v
      | none => a.title,
    sections := match data.sections with
      | some v => some v
      | none => a.sections,
    updatedAt := some env.now }

/-- The record `{ ...assessmentData, jobId: parseInt(jobId), createdAt: new Date(),
updatedAt: new Date() }` under the key the store gives it. -/
def newAssessmentRecord (env : Env) (data : AssessmentData) (jobId : Nat) (id : Nat) :
    Assessment :=
  { id := id, jobId := jobId, title := data.title, sections := data.sections,
    createdAt := some env.now, updatedAt := some env.now }

def dbAssessmentsUpdate (env : Env) (n : Nat) (id : Nat) (f : Assessment → Assessment) :
    Async Unit := do
  dbOp env n
  let s ← getStore
  setStore { s with assessments := s.assessments.map fun a => if a.id = id then f a else a }

def dbAssessmentsAdd (env : Env) (n : Nat) (mk : Nat → Assessment) : Async Nat := do
  dbOp env n
  let s ← getStore
  let id := nextKey (s.assessments.map Assessment.id)
  setStore { s with assessments := s.assessments ++ [mk id] }
  pure id

def dbAssessmentsGet (env : Env) (n : Nat) (id : Nat) : Async (Option Assessment) := do
  dbOp env n
  let s ← getStore
  pure (s.assessments.find? fun a => a.id == id)

/-- Handler `PUT /api/assessments/:jobId`, the body of its `try`. -/
def putAssessmentTry (env : Env) (jobId : Nat) (body : Option AssessmentData) :
    Async Response := do
  simulateNetworkDelay env
  let assessmentData ← reqJson body
  let existing ← dbAssessmentsWhereJobFirst env 0 jobId
  match existing with
  | some e =>
    dbAssessmentsUpdate env 1 e.id (mergeAssessmentData env assessmentData)
    let updated ← dbAssessmentsGet env 2 e.id
    pure ⟨200, .assessment updated⟩
  | none =>
    let id ← dbAssessmentsAdd env 3 (newAssessmentRecord env assessmentData jobId)
    let created ← dbAssessmentsGet env 4 id
    pure ⟨200, .assessment created⟩

def putAssessment (env : Env) (jobId : Nat) (body : Option AssessmentData) :
    Store → Outcome × Store :=
  tryCatch (putAssessmentTry env jobId body)
    fun e => ⟨500, .message ("Failed to save assessment: " ++ e)⟩

structure SubmitBody where
  candidateId : Option Nat
  responses : Option (List String)
deriving DecidableEq, Repr

def dbResponsesAdd (env : Env) (n : Nat) (mk : Nat → AssessmentResponse) : Async Nat := do
  dbOp env n
  let s ← getStore
  let id := nextKey (s.assessmentResponses.map AssessmentResponse.id)
  setStore { s with assessmentResponses := s.assessmentResponses ++ [mk id] }
  pure id

/-- Handler `POST /api/assessments/:jobId/submit`, the body of its `try`. -/
def submitAssessmentTry (env : Env) (jobId : Nat) (body : Option SubmitBody) :
    Async Response := do
  let b ← reqJson body
  let id ← dbResponsesAdd env 0 fun id =>
    { id := id, assessmentId := jobId, candidateId := b.candidateId, responses := b.responses,
      submittedAt := env.now, score := (env.scoreDraw : Int) + 60 }
  pure ⟨200, .submitted id⟩

def submitAssessment (env : Env) (jobId : Nat) (body : Option SubmitBody) :
    Store → Outcome × Store :=
  tryCatch (submitAssessmentTry env jobId body)
    fun e => ⟨500, .message ("Failed to submit assessment: " ++ e)⟩

/-! ## Authentication handler -/

structure LoginBody where
  email : Option String
  password : Option String
deriving DecidableEq, Repr

/-- The call `db.users.where('email').equals(email).first()`; an absent email is not a valid
key. -/
def dbUsersWhereEmailFirst (env : Env) (n : Nat) (email : Option String) :
    Async (Option User) := do
  dbOp env n
  match email with
  | none => Async.fail "Invalid key provided"
  | some v =>
    let s ← getStore
    pure (s.users.find? fun u => u.email == v)

/-- Handler `POST /api/auth/login`, the body of its `try`. -/
def loginTry (env : Env) (b : LoginBody) : Async Response := do
  let user ← dbUsersWhereEmailFirst env 0 b.email
  match user with
  | some u =>
    if some u.password = b.password then
      pure ⟨200, .login true (some u) (some u.id) (some env.now)⟩
    else pure ⟨401, .login false none none none⟩
  | none => pure ⟨401, .login false none none none⟩

/-- Handler `POST /api/auth/login`: the request body is read before the `try` is entered. -/
def login (env : Env) (body : Option LoginBody) : Store → Outcome × Store := fun s =>
  match reqJson body s with
  | (.error e, s') => (.error e, s')
  | (.ok b, s') =>
    tryCatch (loginTry env b) (fun _ => ⟨500, .login false none none none⟩) s'

/-! ## Seed generator: timeline derivation (`database.js`) -/

structure SeedCandidate where
  name : String
  email : String
  stage : String
  jobId : Nat
  createdAt : Int
  updatedAt : Int
  phone : String
  experience : Nat
deriving DecidableEq, Repr

/-- A timeline record before the store gives it a key. -/
structure SeedTimelineEntry where
  candidateId : Nat
  stage : String
  timestamp : Int
  notes : String
deriving DecidableEq, Repr

def stages : List String := ["applied", "screen", "tech", "offer", "hired", "rejected"]

/-- JavaScript `indexOf` (`-1` when absent). -/
def jsIndexOf (xs : List String) (x : String) : Int :=
  match findIndex (fun y => y == x) xs with
  | some i => (i : Int)
  | none => -1

def stageNote (i : Nat) : String :=
  if i = 0 then "Application submitted via careers page"
  else if i = 1 then "Initial screening completed"
  else if i = 2 then "Technical interview scheduled"
  else if i = 3 then "Final round completed"
  else if i = 4 then "Offer extended and accepted"
  else "Application reviewed and closed"

/-- The loop `for (let i = 0; i <= stageIndex; i++) timelines.push(...)` for one candidate. -/
def candidateTimelineEntries (candidateId : Nat) (candidate : SeedCandidate) :
    List SeedTimelineEntry :=
  let stageIndex := jsIndexOf stages candidate.stage
  (List.range (stageIndex + 1).toNat).map fun i =>
    { candidateId := candidateId, stage := stages.getD i "undefined",
      timestamp := candidate.createdAt + (i : Int) * 24 * 60 * 60 * 1000,
      notes := stageNote i }

/-- Keys returned by `bulkAdd(records, { allKeys: true })` on a table with the given keys. -/
def bulkAddKeys (existing : List Nat) (count : Nat) : List Nat :=
  List.range' (nextKey existing) count

/-- The `timelines` array of `generateSeedData`: the candidates are added in bulk, then
`candidateIds.forEach((candidateId, index) => ...)` derives the entries of each. -/
def seedTimelines (existing : List Nat) (candidates : List SeedCandidate) :
    List SeedTimelineEntry :=
  let candidateIds := bulkAddKeys existing candidates.length
  (candidateIds.zip candidates).flatMap fun p => candidateTimelineEntries p.1 p.2

/-! # Notions used in the statements and proofs -/

/-! ## The order written by a reorder -/

/-- The record after the batch update that gives every job of `ids` its position as order. -/
def withPosition (ids : List Nat) (j : Job) : Job :=
  if j.id ∈ ids then { j with order := (ids.indexOf j.id : Nat) } else j

/-! ## The index on `order` -/

instance : IsTotal Job jobOrderLE where
  total a b := by unfold jobOrderLE; omega

instance : IsTrans Job jobOrderLE where
  trans a b c := by unfold jobOrderLE; omega

/-- Order values form a permutation of `0..N-1`. -/
def DenseOrder (jobs : List Job) : Prop :=
  (jobs.map Job.order).Perm ((List.range jobs.length).map Int.ofNat)

instance (jobs : List Job) : Decidable (DenseOrder jobs) := by
  unfold DenseOrder; infer_instance

/-! ## The reorder handler as a move in the display order -/

/-- Conditions under which the reorder handler reaches its last line. -/
structure ReorderRuns (env : Env) (id : Nat) (body : Option ReorderBody) (s : Store)
    (b : ReorderBody) (A : List Job) (x : Job) (B : List Job) : Prop where
  body_eq : body = some b
  calm : simulateNetworkDelay.rejects env.errorDraw env.retryDraw = false
  fault0 : env.dbFault 0 = false
  fault1 : env.dbFault 1 = false
  split : orderByOrder s.jobs = A ++ x :: B
  found : x.id = id
  first : ∀ y ∈ A, y.id ≠ id

/-- Ids of the jobs in the display order that the reorder handler computes. -/
def movedIds (b : ReorderBody) (A : List Job) (x : Job) (B : List Job) : List Nat :=
  spliceInsert ((A ++ B).map Job.id) (reorderNewIndex b.fromOrder b.toOrder) x.id

/-! ## The create handler -/

/-- The job that `POST /api/jobs` inserts into a table. -/
def insertedJob (env : Env) (jobData : JobData) (jobs : List Job) : Job :=
  newJobRecord env jobData (newJobOrder (orderByOrder jobs).getLast?) (nextKey (jobs.map Job.id))

/-- Conditions under which the create handler inserts a job. -/
structure CreateInserts (env : Env) (body : Option JobData) (s : Store)
    (jobData : JobData) (v : Json) : Prop where
  body_eq : body = some jobData
  slug_eq : jobData.slug = some v
  calm : simulateNetworkDelay.rejects env.errorDraw env.retryDraw = false
  fresh : ∀ j ∈ s.jobs, j.slug ≠ some v

/-! ## Sequences of create and reorder requests -/

inductive JobRequest where
  | create (env : Env) (body : Option JobData)
  | reorder (env : Env) (id : Nat) (body : Option ReorderBody)

def JobRequest.handle : JobRequest → Store → Outcome × Store
  | .create env body => createJob env body
  | .reorder env id body => reorderJob env id body

/-- The store after a sequence of requests, each handled on the store the previous one left. -/
def runJobRequests (reqs : List JobRequest) (s : Store) : Store :=
  reqs.foldl (fun st r => (r.handle st).2) s

/-! ## Where a reorder puts the jobs -/

/-- Order value stored for the job with the given key. -/
def orderOf (jobs : List Job) (id : Nat) : Option Int :=
  (jobs.find? fun j => j.id == id).map Job.order

/-! ## The index after a reorder -/

/-- Key of a job in the index on `order`: the order value, then the primary key. -/
def orderKey (j : Job) : Int × Nat := (j.order, j.id)

def keyLE (p q : Int × Nat) : Prop := p.1 < q.1 ∨ (p.1 = q.1 ∧ p.2 ≤ q.2)

instance : IsAntisymm (Int × Nat) keyLE where
  antisymm p q hpq hqp := by
    unfold keyLE at hpq hqp
    apply Prod.ext <;> omega

/-- Slugs of the stored jobs are pairwise distinct. -/
def SlugsUnique (jobs : List Job) : Prop := (jobs.filterMap Job.slug).Nodup

instance (jobs : List Job) : Decidable (SlugsUnique jobs) := by
  unfold SlugsUnique; infer_instance

/-! ## The list that list-jobs pages through -/

/-- Fields of a job on which the schema declares an index. -/
def indexedFields : List String :=
  ["id", "title", "slug", "status", "tags", "order", "createdAt"]

/-- Key of a job in the index on a field; `none` when the field is not indexed or the job
has no valid key there. -/
def fieldKey (field : String) (j : Job) : Option Key :=
  if field = "id" then some (.num j.id)
  else if field = "title" then j.title.map fun t => .str (codeUnits t)
  else if field = "slug" then j.slug.bind Json.key
  else if field = "status" then j.status.key
  else if field = "tags" then j.tags.map fun ts => .arr (ts.map codeUnits)
  else if field = "order" then some (.num j.order)
  else if field = "createdAt" then some (.num j.createdAt)
  else none

/-- Two jobs stand in the order of the index on a field: by key, ties by primary key. -/
def InFieldOrder (field : String) (a b : Job) : Prop :=
  ∃ ka kb, fieldKey field a = some ka ∧ fieldKey field b = some kb ∧
    (Key.lt ka kb = true ∨ (ka = kb ∧ a.id ≤ b.id))

/-- The search of the spec: the title or one of the tags contains the term, letter case
aside. -/
def SearchMatches (env : Env) (term : String) (j : Job) : Prop :=
  (∃ t, j.title = some t ∧
    codeUnits (env.toLowerCase term) <:+: codeUnits (env.toLowerCase t)) ∨
  (∃ ts tag, j.tags = some ts ∧ tag ∈ ts ∧
    codeUnits (env.toLowerCase term) <:+: codeUnits (env.toLowerCase tag))

/-- A job passes the filters of a list-jobs query. -/
def PassesFilters (env : Env) (q : JobsQuery) (j : Job) : Prop :=
  (∀ term, q.search = some term → term ≠ "" → SearchMatches env term j) ∧
  (∀ st, q.status = some st → st ≠ "" → j.status = .str st)

/-- The sort field of a list-jobs query: the `sort` parameter, `order` when there is none. -/
def IsSortField (q : JobsQuery) (field : String) : Prop :=
  (q.sort = some field ∧ field ≠ "") ∨ ((q.sort = none ∨ q.sort = some "") ∧ field = "order")

/-! ## Errors inside the handlers -/

/-- A handler that answers every request, and answers 500 whenever its body fails. -/
def Catches (handler : Store → Outcome × Store) (body : Async Response) : Prop :=
  ∀ s, (∃ r, (handler s).1 = .ok r) ∧
    ∀ e, (body s).1 = .error e → ∃ b, (handler s).1 = .ok ⟨500, b⟩

/-- A handler out of which every failure of its body escapes. -/
def Escapes (handler : Store → Outcome × Store) (body : Async Response) : Prop :=
  ∀ s e, (body s).1 = .error e → (handler s).1 = .error e

/-- Every operation on the store rejects. -/
def StoreDown (env : Env) : Prop := ∀ n, env.dbFault n = true

/-- A handler with a request body whose `try` covers all of its steps: it catches every
failure of its body, and an unreadable request body, a store that rejects and (for the
handlers that go through the network simulator) a simulated network error are such failures,
answered 500. -/
def Guarded {β : Type} (env : Env) (simulated : Bool)
    (handler : Option β → Store → Outcome × Store) (body : Option β → Async Response) : Prop :=
  (∀ b, Catches (handler b) (body b)) ∧
  (∀ s, ∃ m, (handler none s).1 = .ok ⟨500, m⟩) ∧
  (StoreDown env → ∀ b s, ∃ m, (handler b s).1 = .ok ⟨500, m⟩) ∧
  (simulated = true → simulateNetworkDelay.rejects env.errorDraw env.retryDraw = true →
    ∀ b s, ∃ m, (handler b s).1 = .ok ⟨500, m⟩)

/-! ## Examples -/

/-- Lower-casing of the letters `A` to `Z`: the platform's `toLowerCase` on the strings of
these examples. -/
def lowerAscii (s : String) : String := ⟨s.data.map Char.toLower⟩

/-- An environment in which nothing rejects. -/
def calmEnv : Env :=
  { errorDraw := 1 / 2, retryDraw := 1 / 2, scoreDraw := 0, now := 1000,
    dbFault := fun _ => false, toLowerCase := lowerAscii }

def exampleJob (id : Nat) (slug : String) (order : Int) : Job :=
  { id := id, title := some "Engineer", slug := some (.str slug), status := .str "active",
    tags := some [],
    order := order, createdAt := 0, updatedAt := none, description := none }

def threeJobs : Store :=
  { jobs := [exampleJob 1 "a" 0, exampleJob 2 "b" 1, exampleJob 3 "c" 2], candidates := [],
    candidateTimeline := [], assessments := [], assessmentResponses := [], users := [] }

def exampleRequests : List JobRequest :=
  [.create calmEnv (some ⟨some "Writer", some (.str "d"), none, none, none⟩),
   .reorder calmEnv 1 (some ⟨some 0, some 3⟩),
   .create calmEnv (some ⟨some "Writer", some (.str "d"), none, none, none⟩),
   .reorder calmEnv 9 (some ⟨some 0, some 1⟩)]

/-- An environment in which the network simulator rejects. -/
def stormEnv : Env :=
  { errorDraw := 1 / 20, retryDraw := 4 / 5, scoreDraw := 0, now := 1000,
    dbFault := fun _ => false, toLowerCase := lowerAscii }

def duplicateSlugData : JobData :=
  { title := some "Writer", slug := some (.str "a"), status := none, tags := none,
    description := none }

def emptySlugJobs : Store :=
  { jobs := [exampleJob 1 "" 0, exampleJob 2 "b" 1], candidates := [],
    candidateTimeline := [], assessments := [], assessmentResponses := [], users := [] }

def zeroSlugJobs : Store :=
  { jobs := [{ exampleJob 1 "" 0 with slug := some (.num 0) }, exampleJob 2 "b" 1],
    candidates := [], candidateTimeline := [], assessments := [], assessmentResponses := [],
    users := [] }

def slugUpdate (slug : Json) : JobUpdates :=
  { title := none, slug := some slug, status := none, tags := none, order := none,
    description := none }

def ada : Candidate :=
  { id := 1, name := some "Ada", email := some "ada@email.com", stage := .str "applied",
    jobId := 1,
    createdAt := 0, updatedAt := 0, notes := none }

def oneCandidate : Store :=
  { jobs := [exampleJob 1 "a" 0], candidates := [ada], candidateTimeline := [],
    assessments := [], assessmentResponses := [], users := [] }

def stageUpdate (stage : Json) : CandidateUpdates :=
  { name := none, email := none, stage := some stage, jobId := none, notes := none }

def twentyFiveJobs : Store :=
  { jobs := (List.range 25).map fun i => exampleJob (i + 1) "s" (i : Int), candidates := [],
    candidateTimeline := [], assessments := [], assessmentResponses := [], users := [] }

def pageTwoOfTen : JobsQuery :=
  { search := none, status := none, page := some 2, pageSize := some 10, sort := none }

def sortByUpdatedAt : JobsQuery :=
  { search := none, status := none, page := some 1, pageSize := some 10,
    sort := some "updatedAt" }

def untitledData : JobData :=
  { title := none, slug := some (.str "x"), status := none, tags := none, description := none }

def emptyStore : Store :=
  { jobs := [], candidates := [], candidateTimeline := [], assessments := [],
    assessmentResponses := [], users := [] }

/-- The store after `POST /api/jobs` with the body `{ slug: "x" }` on an empty store. -/
def untitledStore : Store := (createJob calmEnv (some untitledData) emptyStore).2

def searchEngineer : JobsQuery :=
  { search := some "eng", status := none, page := none, pageSize := none, sort := none }

def twoAssessments : Store :=
  { jobs := [exampleJob 1 "a" 0, exampleJob 2 "b" 1], candidates := [], candidateTimeline := [],
    assessments :=
      [{ id := 1, jobId := 1, title := some "Quiz", sections := none, createdAt := some 0,
         updatedAt := none },
       { id := 2, jobId := 2, title := some "Test", sections := none, createdAt := some 0,
         updatedAt := none }],
    assessmentResponses := [], users := [] }

def assessmentForJobTwo : AssessmentData :=
  { jobId := some 2, title := some "Quiz", sections := none }

def seedGrace : SeedCandidate :=
  { name := "Grace Rao", email := "grace.rao1@email.com", stage := "tech", jobId := 1,
    createdAt := 5000, updatedAt := 5000, phone := "+911000000000", experience := 3 }

/-- An environment in which every operation on the store rejects. -/
def downEnv : Env :=
  { errorDraw := 1 / 2, retryDraw := 1 / 2, scoreDraw := 0, now := 1000,
    dbFault := fun _ => true, toLowerCase := lowerAscii }

/-! ## Draws of the network simulator -/

/-- Pairs of real draws (the second and the third `Math.random()` of `simulateNetworkDelay`)
on which the simulator rejects. -/
def rejectingDraws : Set (ℝ × ℝ) := {p | simulateNetworkDelay.rejects p.1 p.2 = true}

/-! # Theorems -/

set_option maxRecDepth 100000

/-! ## Asynchronous computations: evaluation lemmas -/

@[simp] theorem Async.pure_apply {α : Type} (a : α) (s : Store) :
    (Pure.pure a : Async α) s = (.ok a, s) := rfl

@[simp] theorem Async.bind_apply {α β : Type} (x : Async α) (f : α → Async β) (s : Store) :
    (x >>= f) s = match x s with
      | (.ok a, s') => f a s'
      | (.error e, s') => (.error e, s') := rfl

@[simp] theorem Async.fail_apply {α : Type} (e : String) (s : Store) :
    (Async.fail e : Async α) s = (.error e, s) := rfl

@[simp] theorem getStore_apply (s : Store) : getStore s = (.ok s, s) := rfl

@[simp] theorem setStore_apply (s' s : Store) : setStore s' s = (.ok (), s') := rfl

/-- The reorder handler runs to the end exactly when nothing rejects and the job is found. -/
theorem reorderJob_eval (env : Env) (id : Nat) (b : ReorderBody) (s : Store) (i : Nat) (mj : Job)
    (hn : simulateNetworkDelay.rejects env.errorDraw env.retryDraw = false)
    (h0 : env.dbFault 0 = false) (h1 : env.dbFault 1 = false)
    (hi : findIndex (fun job => job.id == id) (orderByOrder s.jobs) = some i)
    (hm : (orderByOrder s.jobs)[i]? = some mj) :
    reorderJob env id (some b) s = (.ok ⟨200, .success⟩,
      { s with jobs := applyOrderUpdates (orderUpdates (spliceInsert
          ((orderByOrder s.jobs).eraseIdx i) (reorderNewIndex b.fromOrder b.toOrder) mj)) s.jobs }) := by
  unfold reorderJob tryCatch reorderJobTry
  simp [simulateNetworkDelay, hn, reqJson, dbJobsOrderByOrder, dbOp, h0, Async.pure, hi, hm,
    dbJobsOrderTransaction, h1]

theorem reorderJob_cases (env : Env) (id : Nat) (body : Option ReorderBody) (s : Store) :
    (∃ b i mj, body = some b ∧
        simulateNetworkDelay.rejects env.errorDraw env.retryDraw = false ∧
        env.dbFault 0 = false ∧ env.dbFault 1 = false ∧
        findIndex (fun job => job.id == id) (orderByOrder s.jobs) = some i ∧
        (orderByOrder s.jobs)[i]? = some mj)
    ∨ (∃ e, reorderJob env id body s = (.ok ⟨500, .message e⟩, s)) := by
  unfold reorderJob tryCatch reorderJobTry
  simp only [Async.bind_apply]
  by_cases hn : simulateNetworkDelay.rejects env.errorDraw env.retryDraw
  · right; simp [simulateNetworkDelay, hn]
  cases body with
  | none => right; simp [simulateNetworkDelay, hn, reqJson]
  | some b =>
    by_cases h0 : env.dbFault 0
    · right; simp [simulateNetworkDelay, hn, reqJson, dbJobsOrderByOrder, dbOp, h0, Async.pure]
    cases hi : findIndex (fun job => job.id == id) (orderByOrder s.jobs) with
    | none =>
      right; simp [simulateNetworkDelay, hn, reqJson, dbJobsOrderByOrder, dbOp, h0, Async.pure, hi]
    | some i =>
      cases hm : (orderByOrder s.jobs)[i]? with
      | none =>
        right
        simp [simulateNetworkDelay, hn, reqJson, dbJobsOrderByOrder, dbOp, h0, Async.pure, hi, hm]
      | some mj =>
        by_cases h1 : env.dbFault 1
        · right
          simp [simulateNetworkDelay, hn, reqJson, dbJobsOrderByOrder, dbOp, h0, Async.pure, hi,
            hm, dbJobsOrderTransaction, h1]
        · left
          exact ⟨b, i, mj, rfl, by simpa using hn, by simpa using h0, by simpa using h1, rfl, hm⟩

/-! ## Lists: positions, removal and insertion -/

theorem findIndex_eq_some {α : Type} (p : α → Bool) :
    ∀ (l : List α) (i : Nat), findIndex p l = some i →
      ∃ A x B, l = A ++ x :: B ∧ A.length = i ∧ p x = true ∧ ∀ y ∈ A, p y = false
  | [], i, h => by simp [findIndex] at h
  | a :: l, i, h => by
    unfold findIndex at h
    by_cases hp : p a = true
    · simp only [hp, if_true, Option.some.injEq] at h
      exact ⟨[], a, l, rfl, by simpa using h, hp, by simp⟩
    · simp only [hp, Bool.false_eq_true, if_false, Option.map_eq_some'] at h
      obtain ⟨k, hk, rfl⟩ := h
      obtain ⟨A, x, B, rfl, hA, hx, hall⟩ := findIndex_eq_some p l k hk
      refine ⟨a :: A, x, B, rfl, by simp [hA], hx, ?_⟩
      intro y hy
      rcases List.mem_cons.1 hy with rfl | hy
      · simpa using hp
      · exact hall y hy

theorem findIndex_append {α : Type} (p : α → Bool) (x : α) (B : List α) :
    ∀ (A : List α), (∀ y ∈ A, p y = false) → p x = true →
      findIndex p (A ++ x :: B) = some A.length
  | [], _, hx => by simp [findIndex, hx]
  | a :: A, hA, hx => by
    have ha : p a = false := hA a (List.mem_cons_self _ _)
    have := findIndex_append p x B A (fun y hy => hA y (List.mem_cons_of_mem _ hy)) hx
    simp [findIndex, ha, this]

theorem findIndex_eq_none {α : Type} (p : α → Bool) :
    ∀ (l : List α), findIndex p l = none → ∀ y ∈ l, p y = false
  | [], _ => by simp
  | a :: l, h => by
    unfold findIndex at h
    by_cases hp : p a = true
    · simp [hp] at h
    · simp only [hp, Bool.false_eq_true, if_false, Option.map_eq_none'] at h
      intro y hy
      rcases List.mem_cons.1 hy with rfl | hy
      · simpa using hp
      · exact findIndex_eq_none p l h y hy

theorem eraseIdx_append_cons {α : Type} (A : List α) (x : α) (B : List α) :
    (A ++ x :: B).eraseIdx A.length = A ++ B := by
  induction A with
  | nil => simp
  | cons a A ih => simp [ih]

theorem getElem?_append_cons {α : Type} (A : List α) (x : α) (B : List α) :
    (A ++ x :: B)[A.length]? = some x := by
  induction A with
  | nil => simp
  | cons a A ih => simpa using ih

theorem spliceStart_le (len : Nat) (start : Option Int) : spliceStart len start ≤ len := by
  unfold spliceStart
  cases start with
  | none => simp
  | some k =>
    by_cases hk : k < 0
    · simp only [hk, if_true]; omega
    · simp only [hk, if_false]; exact Nat.min_le_right _ _

theorem spliceInsert_map {α β : Type} (f : α → β) (xs : List α) (start : Option Int) (x : α) :
    (spliceInsert xs start x).map f = spliceInsert (xs.map f) start (f x) := by
  simp [spliceInsert, List.map_take, List.map_drop]

theorem spliceInsert_perm {α : Type} (xs : List α) (start : Option Int) (x : α) :
    (spliceInsert xs start x).Perm (x :: xs) := by
  unfold spliceInsert
  have h := List.take_append_drop (spliceStart xs.length start) xs
  calc (xs.take (spliceStart xs.length start) ++ x :: xs.drop (spliceStart xs.length start)).Perm
        (x :: (xs.take (spliceStart xs.length start) ++ xs.drop (spliceStart xs.length start))) :=
          List.perm_middle
    _ = x :: xs := by rw [h]

theorem indexOf_spliceInsert (xs : List Nat) (start : Option Int) (x : Nat) (hx : x ∉ xs) :
    (spliceInsert xs start x).indexOf x = spliceStart xs.length start := by
  unfold spliceInsert
  have hk := spliceStart_le xs.length start
  have hx' : x ∉ xs.take (spliceStart xs.length start) := fun h => hx (List.mem_of_mem_take h)
  simp only []
  rw [List.indexOf_append_of_not_mem hx', List.indexOf_cons_self, List.length_take]
  omega

/-- Moving twice to the same `splice` position leaves the list as after the first move. -/
theorem spliceInsert_again (R : List Nat) (start : Option Int) (x : Nat) (hx : x ∉ R) :
    ∃ A B, spliceInsert R start x = A ++ x :: B ∧ (∀ y ∈ A, y ≠ x) ∧
      spliceInsert (A ++ B) start x = A ++ x :: B := by
  refine ⟨R.take (spliceStart R.length start), R.drop (spliceStart R.length start), rfl, ?_, ?_⟩
  · intro y hy h
    exact hx (h ▸ List.mem_of_mem_take hy)
  · rw [List.take_append_drop]
    rfl

/-- Inserting an element into a list keeps the relative positions of the others. -/
theorem indexOf_insert_lt_iff (A B : List Nat) (j a b : Nat) (ha : a ≠ j) (hb : b ≠ j) :
    ((A ++ j :: B).indexOf a < (A ++ j :: B).indexOf b ↔
      (A ++ B).indexOf a < (A ++ B).indexOf b) := by
  have hja : j ≠ a := fun h => ha h.symm
  have hjb : j ≠ b := fun h => hb h.symm
  by_cases haA : a ∈ A <;> by_cases hbA : b ∈ A
  · simp only [List.indexOf_append_of_mem haA, List.indexOf_append_of_mem hbA]
  · have h1 := List.indexOf_lt_length.2 haA
    simp only [List.indexOf_append_of_mem haA, List.indexOf_append_of_not_mem hbA,
      List.indexOf_cons_ne _ hjb]
    omega
  · have h1 := List.indexOf_lt_length.2 hbA
    simp only [List.indexOf_append_of_mem hbA, List.indexOf_append_of_not_mem haA,
      List.indexOf_cons_ne _ hja]
    omega
  · simp only [List.indexOf_append_of_not_mem haA, List.indexOf_append_of_not_mem hbA,
      List.indexOf_cons_ne _ hja, List.indexOf_cons_ne _ hjb]
    omega

@[simp] theorem withPosition_id (ids : List Nat) (j : Job) : (withPosition ids j).id = j.id := by
  unfold withPosition; split <;> rfl

theorem withPosition_order (ids : List Nat) (j : Job) (h : j.id ∈ ids) :
    (withPosition ids j).order = (ids.indexOf j.id : Nat) := by
  simp [withPosition, h]

theorem withPosition_idem (ids : List Nat) (j : Job) :
    withPosition ids (withPosition ids j) = withPosition ids j := by
  unfold withPosition; split <;> simp_all

theorem applyOrderUpdates_enumFrom (l : List Job) :
    ∀ (n : Nat) (t : List Job), (l.map Job.id).Nodup →
      applyOrderUpdates ((l.enumFrom n).map fun p => (p.2.id, (p.1 : Int))) t =
        t.map fun j => if j.id ∈ l.map Job.id
          then { j with order := ((n + (l.map Job.id).indexOf j.id : Nat) : Int) } else j := by
  induction l with
  | nil => intro n t _; simp [applyOrderUpdates]
  | cons a l ih =>
    intro n t hnd
    rw [List.map_cons, List.nodup_cons] at hnd
    have hstep : applyOrderUpdates (((a :: l).enumFrom n).map fun p => (p.2.id, (p.1 : Int))) t =
        applyOrderUpdates ((l.enumFrom (n + 1)).map fun p => (p.2.id, (p.1 : Int)))
          (updateJobRecord t a.id fun j => { j with order := (n : Int) }) := by
      simp [applyOrderUpdates, List.enumFrom]
    rw [hstep, ih (n + 1) _ hnd.2, updateJobRecord, List.map_map]
    apply List.map_congr_left
    intro j _
    by_cases hj : j.id = a.id
    · have hnot : a.id ∉ l.map Job.id := hnd.1
      simp only [Function.comp, hj, if_true, hnot, if_false, List.map_cons, List.mem_cons,
        true_or, List.indexOf_cons_self, Nat.add_zero]
    · have hne : a.id ≠ j.id := fun h => hj h.symm
      by_cases hm : j.id ∈ l.map Job.id
      · have hm' : ∃ x ∈ l, x.id = j.id := by simpa using hm
        simp only [Function.comp, hj, if_false, hm, if_true, List.map_cons, List.mem_cons,
          false_or, List.indexOf_cons_ne _ hne]
        congr 1
        push_cast
        ring
      · simp [Function.comp, hj, hm]

theorem applyOrderUpdates_orderUpdates (l t : List Job) (hnd : (l.map Job.id).Nodup) :
    applyOrderUpdates (orderUpdates l) t = t.map (withPosition (l.map Job.id)) := by
  have h := applyOrderUpdates_enumFrom l 0 t hnd
  unfold orderUpdates List.enum
  rw [h]
  apply List.map_congr_left
  intro j _
  unfold withPosition
  simp

theorem orderByOrder_perm (jobs : List Job) : (orderByOrder jobs).Perm jobs :=
  List.perm_insertionSort _ _

theorem orderByOrder_sorted (jobs : List Job) : (orderByOrder jobs).Sorted jobOrderLE :=
  List.sorted_insertionSort _ _

theorem orderByOrder_ids_nodup (jobs : List Job) (h : (jobs.map Job.id).Nodup) :
    ((orderByOrder jobs).map Job.id).Nodup :=
  (((orderByOrder_perm jobs).map Job.id).nodup_iff).2 h

theorem ReorderRuns.result {env : Env} {id : Nat} {body : Option ReorderBody} {s : Store}
    {b : ReorderBody} {A : List Job} {x : Job} {B : List Job}
    (h : ReorderRuns env id body s b A x B) (hnd : (s.jobs.map Job.id).Nodup) :
    reorderJob env id body s = (.ok ⟨200, .success⟩,
      { s with jobs := s.jobs.map (withPosition (movedIds b A x B)) }) := by
  have hp : (fun job : Job => job.id == id) x = true := by simp [h.found]
  have hA : ∀ y ∈ A, (fun job : Job => job.id == id) y = false := by
    intro y hy; simpa using h.first y hy
  have hi : findIndex (fun job => job.id == id) (orderByOrder s.jobs) = some A.length := by
    rw [h.split]; exact findIndex_append _ x B A hA hp
  have hm : (orderByOrder s.jobs)[A.length]? = some x := by
    rw [h.split]; exact getElem?_append_cons A x B
  rw [h.body_eq, reorderJob_eval env id b s A.length x h.calm h.fault0 h.fault1 hi hm]
  have hS := orderByOrder_ids_nodup s.jobs hnd
  have hl : ((spliceInsert ((orderByOrder s.jobs).eraseIdx A.length)
      (reorderNewIndex b.fromOrder b.toOrder) x).map Job.id).Nodup := by
    have hperm : (spliceInsert ((orderByOrder s.jobs).eraseIdx A.length)
        (reorderNewIndex b.fromOrder b.toOrder) x).Perm (orderByOrder s.jobs) := by
      rw [h.split, eraseIdx_append_cons]
      exact (spliceInsert_perm _ _ _).trans List.perm_middle.symm
    exact ((hperm.map Job.id).nodup_iff).2 hS
  rw [applyOrderUpdates_orderUpdates _ _ hl, spliceInsert_map, h.split, eraseIdx_append_cons]
  rfl

theorem reorderJob_spec (env : Env) (id : Nat) (body : Option ReorderBody) (s : Store) :
    (∃ b A x B, ReorderRuns env id body s b A x B)
    ∨ (∃ e, reorderJob env id body s = (.ok ⟨500, .message e⟩, s)) := by
  rcases reorderJob_cases env id body s with ⟨b, i, mj, hb, hn, h0, h1, hi, _⟩ | h
  · left
    obtain ⟨A, x, B, hsplit, _, hx, hA⟩ := findIndex_eq_some _ _ _ hi
    exact ⟨b, A, x, B, hb, hn, h0, h1, hsplit, by simpa using hx,
      fun y hy => by simpa using hA y hy⟩
  · exact Or.inr h

theorem ReorderRuns.ids_perm {env : Env} {id : Nat} {body : Option ReorderBody} {s : Store}
    {b : ReorderBody} {A : List Job} {x : Job} {B : List Job}
    (h : ReorderRuns env id body s b A x B) : (movedIds b A x B).Perm (s.jobs.map Job.id) := by
  have h1 : (movedIds b A x B).Perm (x.id :: (A ++ B).map Job.id) := spliceInsert_perm _ _ _
  have h2 : ((A ++ x :: B).map Job.id).Perm (s.jobs.map Job.id) := by
    rw [← h.split]; exact (orderByOrder_perm s.jobs).map _
  refine h1.trans (List.Perm.trans ?_ h2)
  simp only [List.map_append, List.map_cons]
  exact List.perm_middle.symm

theorem createJob_cases (env : Env) (body : Option JobData) (s : Store) :
    (∃ r, createJob env body s = (.ok r, s) ∧ (r.status = 400 ∨ r.status = 500))
    ∨ (∃ jobData v r, CreateInserts env body s jobData v ∧
        createJob env body s =
          (.ok r, { s with jobs := s.jobs ++ [insertedJob env jobData s.jobs] }) ∧
        (r.status = 200 ∨ r.status = 500)) := by
  unfold createJob tryCatch createJobTry
  simp only [Async.bind_apply]
  by_cases hn : simulateNetworkDelay.rejects env.errorDraw env.retryDraw
  · left; simp [simulateNetworkDelay, hn]
  cases body with
  | none => left; simp [simulateNetworkDelay, hn, reqJson]
  | some jobData =>
    by_cases h0 : env.dbFault 0
    · left; simp [simulateNetworkDelay, hn, reqJson, dbJobsWhereSlugFirst, dbOp, h0, Async.pure]
    cases hs : jobData.slug with
    | none =>
      left; simp [simulateNetworkDelay, hn, reqJson, dbJobsWhereSlugFirst, dbOp, h0, Async.pure, hs]
    | some v =>
      by_cases hkey : v.key.isSome = true
      swap
      · left
        simp [simulateNetworkDelay, hn, reqJson, dbJobsWhereSlugFirst, dbOp, h0, Async.pure, hs,
          hkey]
      cases hf : s.jobs.find? (fun j => j.slug == some v) with
      | some j =>
        left
        simp [simulateNetworkDelay, hn, reqJson, dbJobsWhereSlugFirst, dbOp, h0, Async.pure, hs,
          hkey, hf]
      | none =>
        by_cases h1 : env.dbFault 1
        · left
          simp [simulateNetworkDelay, hn, reqJson, dbJobsWhereSlugFirst, dbOp, h0, Async.pure, hs,
            hkey, hf, dbJobsOrderByOrderLast, h1]
        by_cases h2 : env.dbFault 2
        · left
          simp [simulateNetworkDelay, hn, reqJson, dbJobsWhereSlugFirst, dbOp, h0, Async.pure, hs,
            hkey, hf, dbJobsOrderByOrderLast, h1, dbJobsAdd, h2]
        right
        have hfresh : ∀ j ∈ s.jobs, j.slug ≠ some v := by
          intro j hj
          have := List.find?_eq_none.1 hf j hj
          simpa using this
        by_cases h3 : env.dbFault 3
        · refine ⟨jobData, v, ⟨500, .message ("Failed to create job: " ++ "store operation failed")⟩,
            ⟨rfl, hs, by simpa using hn, hfresh⟩, ?_, Or.inr rfl⟩
          simp [simulateNetworkDelay, hn, reqJson, dbJobsWhereSlugFirst, dbOp, h0, Async.pure, hs,
            hkey, hf, dbJobsOrderByOrderLast, h1, dbJobsAdd, h2, dbJobsGet, h3, insertedJob]
        · refine ⟨jobData, v, ⟨200, .job (((s.jobs ++ [insertedJob env jobData s.jobs]).find?
            fun j => j.id == nextKey (s.jobs.map Job.id)))⟩,
            ⟨rfl, hs, by simpa using hn, hfresh⟩, ?_, Or.inl rfl⟩
          simp [simulateNetworkDelay, hn, reqJson, dbJobsWhereSlugFirst, dbOp, h0, Async.pure, hs,
            hkey, hf, dbJobsOrderByOrderLast, h1, dbJobsAdd, h2, dbJobsGet, h3, insertedJob]

theorem le_foldl_max (l : List Nat) : ∀ (m : Nat), m ≤ l.foldl max m ∧ ∀ x ∈ l, x ≤ l.foldl max m := by
  induction l with
  | nil => intro m; simp
  | cons a l ih =>
    intro m
    obtain ⟨h1, h2⟩ := ih (max m a)
    refine ⟨le_trans (le_max_left m a) h1, ?_⟩
    intro x hx
    rcases List.mem_cons.1 hx with rfl | hx
    · exact le_trans (le_max_right m x) h1
    · exact h2 x hx

theorem nextKey_not_mem (keys : List Nat) : nextKey keys ∉ keys := by
  intro h
  have := (le_foldl_max keys 0).2 _ h
  unfold nextKey at this
  omega

/-! ## Dense order -/

theorem sorted_range_cast (n : Nat) : ((List.range n).map Int.ofNat).Sorted (· ≤ ·) := by
  refine List.Pairwise.map Int.ofNat ?_ (List.pairwise_lt_range n)
  intro a b hab
  exact Int.ofNat_le.2 (Nat.le_of_lt hab)

/-- In a store with dense order the index on `order` lists the jobs by their order value. -/
theorem orderByOrder_orders (jobs : List Job) (h : DenseOrder jobs) :
    (orderByOrder jobs).map Job.order = (List.range jobs.length).map Int.ofNat := by
  refine List.eq_of_perm_of_sorted (r := (· ≤ ·)) ?_ ?_ (sorted_range_cast _)
  · exact ((orderByOrder_perm jobs).map Job.order).trans h
  · refine List.Pairwise.map Job.order ?_ (orderByOrder_sorted jobs)
    intro a b hab
    unfold jobOrderLE at hab
    omega

theorem newJobOrder_dense (jobs : List Job) (h : DenseOrder jobs) :
    newJobOrder (orderByOrder jobs).getLast? = jobs.length := by
  have ho := orderByOrder_orders jobs h
  have hl : (orderByOrder jobs).length = jobs.length := (orderByOrder_perm jobs).length_eq
  cases hlast : (orderByOrder jobs).getLast? with
  | none =>
    have : orderByOrder jobs = [] := List.getLast?_eq_none_iff.1 hlast
    rw [this] at hl
    simp [newJobOrder, ← hl]
  | some m =>
    have h1 : ((orderByOrder jobs).map Job.order).getLast? = some m.order := by
      rw [List.getLast?_map, hlast]; rfl
    rw [ho] at h1
    have hpos : jobs.length ≠ 0 := by
      intro h0
      rw [h0] at h1
      simp at h1
    obtain ⟨k, hk⟩ := Nat.exists_eq_succ_of_ne_zero hpos
    rw [hk, List.range_succ] at h1
    simp at h1
    simp [newJobOrder, ← h1, hk]

theorem DenseOrder.append_new (jobs : List Job) (h : DenseOrder jobs) (j : Job)
    (hj : j.order = jobs.length) : DenseOrder (jobs ++ [j]) := by
  unfold DenseOrder at *
  rw [List.length_append, List.length_singleton, List.range_succ, List.map_append,
    List.map_append]
  exact List.Perm.append h (by simp [hj])

theorem nodup_map_indexOf (L : List Nat) (h : L.Nodup) :
    L.map (fun x => L.indexOf x) = List.range L.length := by
  apply List.ext_getElem
  · simp
  · intro i h1 h2
    simp only [List.getElem_map, List.getElem_range]
    exact List.indexOf_getElem h i _

theorem DenseOrder.withPosition (jobs : List Job) (L : List Nat) (hL : L.Perm (jobs.map Job.id))
    (hnd : (jobs.map Job.id).Nodup) : DenseOrder (jobs.map (withPosition L)) := by
  unfold DenseOrder
  have hLnd : L.Nodup := (hL.nodup_iff).2 hnd
  have h1 : (jobs.map (TalentFlow.withPosition L)).map Job.order =
      (jobs.map Job.id).map (fun x => ((L.indexOf x : Nat) : Int)) := by
    rw [List.map_map, List.map_map]
    apply List.map_congr_left
    intro j hj
    have : j.id ∈ L := hL.mem_iff.2 (List.mem_map_of_mem _ hj)
    simp [withPosition_order L j this]
  have h2 : L.map (fun x => ((L.indexOf x : Nat) : Int)) = (List.range L.length).map Int.ofNat := by
    rw [← nodup_map_indexOf L hLnd, List.map_map]
    rfl
  rw [h1, List.length_map]
  have hlen : jobs.length = L.length := by simpa using hL.length_eq.symm
  rw [hlen, ← h2]
  exact (hL.map _).symm

theorem JobRequest.handle_keeps (r : JobRequest) (s : Store)
    (hnd : (s.jobs.map Job.id).Nodup) (hd : DenseOrder s.jobs) :
    ((r.handle s).2.jobs.map Job.id).Nodup ∧ DenseOrder (r.handle s).2.jobs := by
  cases r with
  | create env body =>
    rcases createJob_cases env body s with ⟨r, hr, _⟩ | ⟨jobData, v, r, _, hr, _⟩
    · simp only [JobRequest.handle, hr]; exact ⟨hnd, hd⟩
    · simp only [JobRequest.handle, hr]
      constructor
      · rw [List.map_append, List.nodup_append]
        refine ⟨hnd, by simp, ?_⟩
        intro a ha hb
        have hb' : a = nextKey (s.jobs.map Job.id) := by
          simpa [insertedJob, newJobRecord] using hb
        exact nextKey_not_mem _ (hb' ▸ ha)
      · exact hd.append_new _ _ (newJobOrder_dense s.jobs hd)
  | reorder env id body =>
    rcases reorderJob_spec env id body s with ⟨b, A, x, B, h⟩ | ⟨e, he⟩
    · simp only [JobRequest.handle, h.result hnd]
      constructor
      · rw [List.map_map]
        have : (Job.id ∘ withPosition (movedIds b A x B)) = Job.id := by
          funext j; simp
        rw [this]; exact hnd
      · exact DenseOrder.withPosition _ _ h.ids_perm hnd
    · simp only [JobRequest.handle, he]; exact ⟨hnd, hd⟩

/-- C1: starting from a store whose order values are a permutation of `0..N-1` (primary keys
being unique), after any finite sequence of create-job and reorder-job requests, whatever each
of them answers, the order values of the stored jobs are a permutation of `0..N'-1`. -/
theorem order_dense_after_requests (reqs : List JobRequest) (s : Store)
    (hnd : (s.jobs.map Job.id).Nodup) (hd : DenseOrder s.jobs) :
    DenseOrder (runJobRequests reqs s).jobs := by
  suffices h : ((runJobRequests reqs s).jobs.map Job.id).Nodup ∧
      DenseOrder (runJobRequests reqs s).jobs from h.2
  induction reqs generalizing s with
  | nil => exact ⟨hnd, hd⟩
  | cons r reqs ih =>
    have hk := r.handle_keeps s hnd hd
    exact ih (r.handle s).2 hk.1 hk.2

theorem find?_id_of_mem (jobs : List Job) (hnd : (jobs.map Job.id).Nodup) (a : Job)
    (ha : a ∈ jobs) : (jobs.find? fun j => j.id == a.id) = some a := by
  induction jobs with
  | nil => simp at ha
  | cons c jobs ih =>
    rw [List.map_cons, List.nodup_cons] at hnd
    rcases List.mem_cons.1 ha with rfl | ha'
    · simp
    · have hne : c.id ≠ a.id := by
        intro h
        exact hnd.1 (h ▸ List.mem_map_of_mem _ ha')
      simp [List.find?_cons, hne, ih hnd.2 ha']

theorem orderOf_map_withPosition (jobs : List Job) (hnd : (jobs.map Job.id).Nodup) (L : List Nat)
    (a : Job) (ha : a ∈ jobs) (haL : a.id ∈ L) :
    orderOf (jobs.map (withPosition L)) a.id = some ((L.indexOf a.id : Nat) : Int) := by
  have hnd' : ((jobs.map (withPosition L)).map Job.id).Nodup := by
    rw [List.map_map]
    have : (Job.id ∘ withPosition L) = Job.id := by funext j; simp
    rw [this]; exact hnd
  have hmem : withPosition L a ∈ jobs.map (withPosition L) := List.mem_map_of_mem _ ha
  have := find?_id_of_mem _ hnd' _ hmem
  rw [withPosition_id] at this
  simp [orderOf, this, withPosition_order L a haL]

/-- In a store with dense order, the order value of a job is its position in the index. -/
theorem order_eq_position (jobs : List Job) (hnd : (jobs.map Job.id).Nodup)
    (hd : DenseOrder jobs) (a : Job) (ha : a ∈ jobs) :
    a.order = ((((orderByOrder jobs).map Job.id).indexOf a.id : Nat) : Int) := by
  have haS : a ∈ orderByOrder jobs := (orderByOrder_perm jobs).mem_iff.2 ha
  obtain ⟨i, hi, hia⟩ := List.getElem_of_mem haS
  have hS := orderByOrder_ids_nodup jobs hnd
  have hi' : i < ((orderByOrder jobs).map Job.id).length := by simpa using hi
  have h1 : ((orderByOrder jobs).map Job.id).indexOf (((orderByOrder jobs).map Job.id)[i]) = i :=
    List.indexOf_getElem hS i hi'
  have h2 : ((orderByOrder jobs).map Job.id)[i] = a.id := by simp [hia]
  rw [h2] at h1
  have ho := orderByOrder_orders jobs hd
  have hi'' : i < ((orderByOrder jobs).map Job.order).length := by simpa using hi
  have h3 : ((orderByOrder jobs).map Job.order)[i] = a.order := by simp [hia]
  have h4 : ((orderByOrder jobs).map Job.order)[i] = (i : Int) := by
    simp only [ho]
    simp
  rw [h1, ← h3, h4]

/-- C2: in a store with dense order, a reorder request for job `j` that names its current
order as `fromOrder` and a `toOrder` with `0 ≤ toOrder < N`, when it succeeds, leaves `j` with
order `toOrder - 1` if `fromOrder < toOrder` and with `toOrder` otherwise, and any two other
jobs compare by order after the request as they did before. -/
theorem reorder_places_job (env : Env) (s : Store) (j : Job) (toOrder : Int)
    (hnd : (s.jobs.map Job.id).Nodup) (hd : DenseOrder s.jobs) (hj : j ∈ s.jobs)
    (ht0 : 0 ≤ toOrder) (htN : toOrder < s.jobs.length)
    (hok : (reorderJob env j.id (some ⟨some j.order, some toOrder⟩) s).1 = .ok ⟨200, .success⟩) :
    orderOf (reorderJob env j.id (some ⟨some j.order, some toOrder⟩) s).2.jobs j.id
        = some (if j.order < toOrder then toOrder - 1 else toOrder) ∧
    ∀ a ∈ s.jobs, ∀ b ∈ s.jobs, a.id ≠ j.id → b.id ≠ j.id →
      ∃ oa ob,
        orderOf (reorderJob env j.id (some ⟨some j.order, some toOrder⟩) s).2.jobs a.id = some oa ∧
        orderOf (reorderJob env j.id (some ⟨some j.order, some toOrder⟩) s).2.jobs b.id = some ob ∧
        (oa < ob ↔ a.order < b.order) := by
  rcases reorderJob_spec env j.id (some ⟨some j.order, some toOrder⟩) s with
    ⟨b, A, x, B, h⟩ | ⟨e, he⟩
  swap
  · rw [he] at hok
    simp at hok
  have hb : b = ⟨some j.order, some toOrder⟩ := by
    have := h.body_eq
    simp at this
    exact this.symm
  subst hb
  rw [h.result hnd]
  simp only []
  -- the index lists the jobs as `A ++ x :: B`, and `x` carries the key of `j`
  have hS := orderByOrder_ids_nodup s.jobs hnd
  have hsplit : (orderByOrder s.jobs).map Job.id = A.map Job.id ++ j.id :: B.map Job.id := by
    rw [h.split, List.map_append, List.map_cons, h.found]
  rw [hsplit] at hS
  have hjA : j.id ∉ A.map Job.id := by
    intro hm
    have := (List.nodup_append.1 hS).2.2 hm (List.mem_cons_self _ _)
    exact this
  have hjB : j.id ∉ B.map Job.id := by
    have := (List.nodup_append.1 hS).2.1
    exact (List.nodup_cons.1 this).1
  have hjR : j.id ∉ (A ++ B).map Job.id := by
    rw [List.map_append, List.mem_append]
    exact fun hm => hm.elim hjA hjB
  -- the order of `j` is its position, the length of `A`
  have hpos : j.order = (A.length : Int) := by
    rw [order_eq_position s.jobs hnd hd j hj, hsplit,
      List.indexOf_append_of_not_mem hjA, List.indexOf_cons_self]
    simp
  have hlen : s.jobs.length = A.length + B.length + 1 := by
    have := (orderByOrder_perm s.jobs).length_eq
    rw [h.split] at this
    simp at this
    omega
  -- the position at which `splice` inserts
  have hstart : spliceStart ((A ++ B).map Job.id).length
      (reorderNewIndex (some j.order) (some toOrder)) =
        (if j.order < toOrder then toOrder - 1 else toOrder).toNat := by
    unfold spliceStart reorderNewIndex
    simp only [List.length_map, List.length_append]
    by_cases hlt : j.order < toOrder
    · simp only [hlt, if_true]
      have h0 : ¬ (toOrder - 1 < 0) := by omega
      simp only [h0, if_false]
      apply Nat.min_eq_left
      omega
    · simp only [hlt, if_false]
      have h0 : ¬ (toOrder < 0) := by omega
      simp only [h0, if_false]
      apply Nat.min_eq_left
      omega
  have hnonneg : 0 ≤ (if j.order < toOrder then toOrder - 1 else toOrder) := by
    split <;> omega
  have hmem : ∀ a ∈ s.jobs, a.id ∈ movedIds ⟨some j.order, some toOrder⟩ A x B := by
    intro a ha
    exact h.ids_perm.mem_iff.2 (List.mem_map_of_mem _ ha)
  constructor
  · rw [orderOf_map_withPosition s.jobs hnd _ j hj (hmem j hj)]
    unfold movedIds
    rw [h.found, indexOf_spliceInsert _ _ _ hjR, hstart, Int.toNat_of_nonneg hnonneg]
  · intro a ha c hc hane hcne
    refine ⟨_, _, orderOf_map_withPosition s.jobs hnd _ a ha (hmem a ha),
      orderOf_map_withPosition s.jobs hnd _ c hc (hmem c hc), ?_⟩
    rw [order_eq_position s.jobs hnd hd a ha, order_eq_position s.jobs hnd hd c hc, hsplit]
    unfold movedIds spliceInsert
    simp only [h.found, Nat.cast_lt]
    rw [indexOf_insert_lt_iff _ _ j.id a.id c.id hane hcne,
      indexOf_insert_lt_iff _ _ j.id a.id c.id hane hcne, List.take_append_drop,
      List.map_append]

/-- After a reorder the index on `order` lists the jobs in the display order it computed. -/
theorem orderByOrder_withPosition (jobs : List Job) (L : List Nat)
    (hL : L.Perm (jobs.map Job.id)) (hnd : (jobs.map Job.id).Nodup) :
    (orderByOrder (jobs.map (withPosition L))).map Job.id = L := by
  have hLnd : L.Nodup := (hL.nodup_iff).2 hnd
  have hkeys : (orderByOrder (jobs.map (withPosition L))).map orderKey =
      L.map (fun x => (((L.indexOf x : Nat) : Int), x)) := by
    refine List.eq_of_perm_of_sorted (r := keyLE) ?_ ?_ ?_
    · refine ((orderByOrder_perm _).map orderKey).trans ?_
      have h1 : (jobs.map (withPosition L)).map orderKey =
          (jobs.map Job.id).map (fun x => (((L.indexOf x : Nat) : Int), x)) := by
        rw [List.map_map, List.map_map]
        apply List.map_congr_left
        intro j hj
        have : j.id ∈ L := hL.mem_iff.2 (List.mem_map_of_mem _ hj)
        simp [orderKey, withPosition_order L j this]
      rw [h1]
      exact (hL.map _).symm
    · refine List.Pairwise.map orderKey ?_ (orderByOrder_sorted _)
      intro a b hab
      exact hab
    · have hfst : (L.map (fun x => (((L.indexOf x : Nat) : Int), x))).map Prod.fst =
          (List.range L.length).map Int.ofNat := by
        rw [← nodup_map_indexOf L hLnd, List.map_map, List.map_map]
        rfl
      have hlt : ((List.range L.length).map Int.ofNat).Pairwise (· < ·) := by
        refine List.Pairwise.map Int.ofNat ?_ (List.pairwise_lt_range L.length)
        intro a b hab
        exact Int.ofNat_lt.2 hab
      rw [← hfst] at hlt
      refine List.Pairwise.of_map Prod.fst ?_ hlt
      intro a b hab
      exact Or.inl hab
  have h2 := congrArg (List.map Prod.snd) hkeys
  rw [List.map_map, List.map_map] at h2
  have h3 : (Prod.snd ∘ orderKey) = Job.id := rfl
  have h4 : (Prod.snd ∘ fun x : Nat => (((L.indexOf x : Nat) : Int), x)) = id := rfl
  rw [h3, h4, List.map_id] at h2
  exact h2

theorem append_cons_unique {A B A' B' : List Nat} {x : Nat} (hA : x ∉ A) (hA' : x ∉ A')
    (h : A ++ x :: B = A' ++ x :: B') : A = A' ∧ B = B' := by
  induction A generalizing A' with
  | nil =>
    cases A' with
    | nil => simpa using h
    | cons a A' =>
      simp at h
      exact absurd (h.1 ▸ List.mem_cons_self _ _) hA'
  | cons a A ih =>
    cases A' with
    | nil =>
      simp at h
      exact absurd (h.1 ▸ List.mem_cons_self _ _) hA
    | cons a' A' =>
      simp only [List.cons_append, List.cons.injEq] at h
      have := ih (fun hm => hA (List.mem_cons_of_mem _ hm))
        (fun hm => hA' (List.mem_cons_of_mem _ hm)) h.2
      exact ⟨by rw [h.1, this.1], this.2⟩

/-- The display order computed by a second, identical reorder is that of the first. -/
theorem ReorderRuns.movedIds_again {env env' : Env} {id : Nat} {body : Option ReorderBody}
    {s : Store} {b b' : ReorderBody} {A B A' B' : List Job} {x x' : Job}
    (h : ReorderRuns env id body s b A x B) (hnd : (s.jobs.map Job.id).Nodup)
    (h' : ReorderRuns env' id body
      { s with jobs := s.jobs.map (withPosition (movedIds b A x B)) } b' A' x' B') :
    movedIds b' A' x' B' = movedIds b A x B := by
  have hb : b' = b := by
    have h1 := h.body_eq
    have h2 := h'.body_eq
    rw [h1] at h2
    exact (Option.some.inj h2).symm
  subst hb
  have hidx := orderByOrder_withPosition s.jobs (movedIds b' A x B) h.ids_perm hnd
  have hsplit' := h'.split
  simp only [] at hsplit'
  rw [hsplit', List.map_append, List.map_cons, h'.found] at hidx
  -- the key of the moved job is not among the others
  have hS := orderByOrder_ids_nodup s.jobs hnd
  rw [h.split, List.map_append, List.map_cons, h.found] at hS
  have hxR : id ∉ (A ++ B).map Job.id := by
    rw [List.map_append, List.mem_append]
    intro hm
    rcases hm with hm | hm
    · exact (List.nodup_append.1 hS).2.2 hm (List.mem_cons_self _ _)
    · exact (List.nodup_cons.1 (List.nodup_append.1 hS).2.1).1 hm
  obtain ⟨A0, B0, h0, hA0, hagain⟩ :=
    spliceInsert_again ((A ++ B).map Job.id) (reorderNewIndex b'.fromOrder b'.toOrder) id hxR
  have hmoved : movedIds b' A x B = A0 ++ id :: B0 := by
    unfold movedIds; rw [h.found]; exact h0
  rw [hmoved] at hidx
  have hA' : id ∉ A'.map Job.id := by
    intro hm
    obtain ⟨y, hy, hyid⟩ := List.mem_map.1 hm
    exact h'.first y hy hyid
  have hA0' : id ∉ A0 := fun hm => hA0 id hm rfl
  obtain ⟨e1, e2⟩ := append_cons_unique hA' hA0' hidx
  rw [hmoved]
  unfold movedIds
  rw [List.map_append, e1, e2, h'.found]
  exact hagain

/-- C3: when a reorder request succeeds, handling the same request once more changes nothing:
with the same environment it succeeds again and leaves the store exactly as the first
application left it, and under any other environment (where it may fail) the store is
left as well as the first application left it. -/
theorem reorder_idempotent (env env' : Env) (id : Nat) (body : Option ReorderBody) (s : Store)
    (hnd : (s.jobs.map Job.id).Nodup)
    (hok : (reorderJob env id body s).1 = .ok ⟨200, .success⟩) :
    reorderJob env id body (reorderJob env id body s).2
        = (.ok ⟨200, .success⟩, (reorderJob env id body s).2) ∧
    (reorderJob env' id body (reorderJob env id body s).2).2 = (reorderJob env id body s).2 := by
  rcases reorderJob_spec env id body s with ⟨b, A, x, B, h⟩ | ⟨e, he⟩
  swap
  · rw [he] at hok
    simp at hok
  rw [h.result hnd]
  simp only []
  have hnd₁ : (({ s with jobs := s.jobs.map (withPosition (movedIds b A x B)) } : Store).jobs.map
      Job.id).Nodup := by
    simp only [List.map_map]
    have : (Job.id ∘ withPosition (movedIds b A x B)) = Job.id := by funext j; simp
    rw [this]; exact hnd
  have hsame : ∀ (env'' : Env) (b' : ReorderBody) (A' B' : List Job) (x' : Job),
      ReorderRuns env'' id body
        { s with jobs := s.jobs.map (withPosition (movedIds b A x B)) } b' A' x' B' →
      reorderJob env'' id body { s with jobs := s.jobs.map (withPosition (movedIds b A x B)) } =
        (.ok ⟨200, .success⟩, { s with jobs := s.jobs.map (withPosition (movedIds b A x B)) }) := by
    intro env'' b' A' B' x' h'
    rw [h'.result hnd₁, h.movedIds_again hnd h']
    simp only [List.map_map]
    have : (withPosition (movedIds b A x B) ∘ withPosition (movedIds b A x B)) =
        withPosition (movedIds b A x B) := by
      funext j; exact withPosition_idem _ j
    rw [this]
  constructor
  · -- the same environment: the job is found again, so the handler runs to its end
    have hidx := orderByOrder_withPosition s.jobs (movedIds b A x B) h.ids_perm hnd
    have hmem : id ∈ movedIds b A x B := by
      rw [h.ids_perm.mem_iff, ← h.found]
      have hx : x ∈ orderByOrder s.jobs := by rw [h.split]; simp
      exact List.mem_map_of_mem _ ((orderByOrder_perm s.jobs).mem_iff.1 hx)
    cases hfi : findIndex (fun job => job.id == id)
        (orderByOrder (s.jobs.map (withPosition (movedIds b A x B)))) with
    | none =>
      exfalso
      rw [← hidx] at hmem
      obtain ⟨y, hy, hyid⟩ := List.mem_map.1 hmem
      have := findIndex_eq_none _ _ hfi y hy
      simp [hyid] at this
    | some i =>
      obtain ⟨A', x', B', hsplit, _, hx', hA'⟩ := findIndex_eq_some _ _ _ hfi
      exact hsame env b A' B' x' ⟨h.body_eq, h.calm, h.fault0, h.fault1, hsplit,
        by simpa using hx', fun y hy => by simpa using hA' y hy⟩
  · rcases reorderJob_spec env' id body
      { s with jobs := s.jobs.map (withPosition (movedIds b A x B)) } with
      ⟨b', A', x', B', h'⟩ | ⟨e, he⟩
    · rw [hsame env' b' A' B' x' h']
    · rw [he]

/-! ## Slugs -/

theorem find?_slug_isSome (jobs : List Job) (v : Json) (h : ∃ j ∈ jobs, j.slug = some v) :
    ∃ j, (jobs.find? fun j => j.slug == some v) = some j := by
  obtain ⟨j, hj, hv⟩ := h
  cases hf : jobs.find? (fun j => j.slug == some v) with
  | some k => exact ⟨k, rfl⟩
  | none =>
    have := List.find?_eq_none.1 hf j hj
    simp [hv] at this

/-- C4 (amended): a create-job request whose slug is held by a stored job never inserts: the
store is left as it was; the answer is 400, unless the network simulator rejects or the slug
lookup fails (the store rejects, or the slug is not a valid key), in which case it is 500. -/
theorem createJob_duplicate_slug (env : Env) (s : Store) (jobData : JobData) (v : Json)
    (hslug : jobData.slug = some v) (hex : ∃ j ∈ s.jobs, j.slug = some v) :
    (createJob env (some jobData) s).2 = s ∧
    ∃ m, (createJob env (some jobData) s).1 = .ok
      ⟨if simulateNetworkDelay.rejects env.errorDraw env.retryDraw || env.dbFault 0 ||
          !v.key.isSome
        then 500 else 400, .message m⟩ := by
  obtain ⟨k, hk⟩ := find?_slug_isSome s.jobs v hex
  unfold createJob tryCatch createJobTry
  simp only [Async.bind_apply]
  by_cases hn : simulateNetworkDelay.rejects env.errorDraw env.retryDraw
  · simp [simulateNetworkDelay, hn]
  by_cases h0 : env.dbFault 0
  · simp [simulateNetworkDelay, hn, reqJson, dbJobsWhereSlugFirst, dbOp, h0, Async.pure]
  by_cases hkey : v.key.isSome = true
  · simp [simulateNetworkDelay, hn, reqJson, dbJobsWhereSlugFirst, dbOp, h0, Async.pure, hslug,
      hkey, hk]
  · simp [simulateNetworkDelay, hn, reqJson, dbJobsWhereSlugFirst, dbOp, h0, Async.pure, hslug,
      hkey]

theorem slugsUnique_iff (jobs : List Job) :
    SlugsUnique jobs ↔ jobs.Pairwise fun a b => ∀ v ∈ a.slug, ∀ w ∈ b.slug, v ≠ w := by
  unfold SlugsUnique List.Nodup
  rw [List.pairwise_filterMap]

theorem updateJob_cases (env : Env) (id : Nat) (body : Option JobUpdates) (s : Store) :
    (∃ r, updateJob env id body s = (.ok r, s) ∧ (r.status = 400 ∨ r.status = 500))
    ∨ (∃ u r, body = some u ∧
        (∀ v, u.slug = some v → v.truthy = true →
          ∀ j ∈ s.jobs, j.slug = some v → j.id = id) ∧
        updateJob env id body s =
          (.ok r, { s with jobs := updateJobRecord s.jobs id (mergeJobUpdates env u) }) ∧
        (r.status = 200 ∨ r.status = 500)) := by
  unfold updateJob tryCatch updateJobTry
  simp only [Async.bind_apply]
  by_cases hn : simulateNetworkDelay.rejects env.errorDraw env.retryDraw
  · left; simp [simulateNetworkDelay, hn]
  cases body with
  | none => left; simp [simulateNetworkDelay, hn, reqJson]
  | some u =>
    have hfin : ∃ r, (match (do
              dbJobsUpdate env 1 id (mergeJobUpdates env u)
              let updatedJob ← dbJobsGet env 2 id
              (pure ⟨200, .job updatedJob⟩ : Async Response)) s with
            | (.ok r, s') => ((.ok r : Outcome), s')
            | (.error e, s') => (.ok ⟨500, .message ("Failed to update job: " ++ e)⟩, s')) =
          (.ok r, if env.dbFault 1 then s else
            { s with jobs := updateJobRecord s.jobs id (mergeJobUpdates env u) }) ∧
          (if env.dbFault 1 then r.status = 500 else (r.status = 200 ∨ r.status = 500)) := by
      by_cases h1 : env.dbFault 1
      · simp [dbJobsUpdate, dbOp, h1]
      by_cases h2 : env.dbFault 2
      · simp [dbJobsUpdate, dbOp, h1, dbJobsGet, h2]
      · simp [dbJobsUpdate, dbOp, h1, dbJobsGet, h2, Async.pure]
    obtain ⟨r, hr, hst⟩ := hfin
    by_cases ht : truthyField u.slug = true
    · by_cases h0 : env.dbFault 0
      · left
        simp [simulateNetworkDelay, hn, reqJson, ht, dbJobsWhereSlugOtherFirst, dbOp, h0,
          Async.pure]
      by_cases hkey : (u.slug.getD Json.null).key.isSome = true
      swap
      · left
        simp [simulateNetworkDelay, hn, reqJson, ht, dbJobsWhereSlugOtherFirst, dbOp, h0,
          Async.pure, hkey]
      cases hf : s.jobs.find? (fun j => j.slug == some (u.slug.getD Json.null) && j.id != id) with
      | some k =>
        left
        simp [simulateNetworkDelay, hn, reqJson, ht, dbJobsWhereSlugOtherFirst, dbOp, h0,
          Async.pure, hkey, hf]
      | none =>
        have hfree : ∀ v, u.slug = some v → v.truthy = true →
            ∀ j ∈ s.jobs, j.slug = some v → j.id = id := by
          intro v hv _ j hj hjs
          have := List.find?_eq_none.1 hf j hj
          simp [hv, hjs] at this
          exact this
        by_cases h1 : env.dbFault 1
        · left
          refine ⟨r, ?_, Or.inr (by simpa [h1] using hst)⟩
          simp only [h1, if_true] at hr
          simpa [simulateNetworkDelay, hn, reqJson, ht, dbJobsWhereSlugOtherFirst, dbOp, h0,
            Async.pure, hkey, hf] using hr
        · right
          refine ⟨u, r, rfl, hfree, ?_, by simpa [h1] using hst⟩
          simp only [h1, Bool.false_eq_true, if_false] at hr
          simpa [simulateNetworkDelay, hn, reqJson, ht, dbJobsWhereSlugOtherFirst, dbOp, h0,
            Async.pure, hkey, hf] using hr
    · have hfree : ∀ v, u.slug = some v → v.truthy = true →
          ∀ j ∈ s.jobs, j.slug = some v → j.id = id := by
        intro v hv hne
        exfalso
        apply ht
        simp [truthyField, hv, hne]
      by_cases h1 : env.dbFault 1
      · left
        refine ⟨r, ?_, Or.inr (by simpa [h1] using hst)⟩
        simp only [h1, if_true] at hr
        simpa [simulateNetworkDelay, hn, reqJson, ht, Async.pure] using hr
      · right
        refine ⟨u, r, rfl, hfree, ?_, by simpa [h1] using hst⟩
        simp only [h1, Bool.false_eq_true, if_false] at hr
        simpa [simulateNetworkDelay, hn, reqJson, ht, Async.pure] using hr

theorem mergeJobUpdates_slug (env : Env) (u : JobUpdates) (j : Job) :
    (mergeJobUpdates env u j).slug = match u.slug with
      | some v => some v
      | none => j.slug := rfl

theorem slugsUnique_update (env : Env) (jobs : List Job) (id : Nat) (u : JobUpdates)
    (hnd : (jobs.map Job.id).Nodup) (hu : SlugsUnique jobs)
    (hfree : ∀ v, u.slug = some v → ∀ j ∈ jobs, j.slug = some v → j.id = id) :
    SlugsUnique (updateJobRecord jobs id (mergeJobUpdates env u)) := by
  rw [slugsUnique_iff] at hu ⊢
  unfold updateJobRecord
  rw [List.pairwise_map]
  have hids : jobs.Pairwise fun a b => a.id ≠ b.id := by
    have := hnd
    unfold List.Nodup at this
    rwa [List.pairwise_map] at this
  refine List.Pairwise.imp_of_mem ?_ (hids.and hu)
  intro a b ha hb hab
  obtain ⟨hne, hR⟩ := hab
  cases hs : u.slug with
  | none =>
    have e1 : (if a.id = id then mergeJobUpdates env u a else a).slug = a.slug := by
      split <;> simp [mergeJobUpdates_slug, hs]
    have e2 : (if b.id = id then mergeJobUpdates env u b else b).slug = b.slug := by
      split <;> simp [mergeJobUpdates_slug, hs]
    rw [e1, e2]; exact hR
  | some x =>
    by_cases ha' : a.id = id
    · have hb' : b.id ≠ id := fun h => hne (ha'.trans h.symm)
      simp only [ha', if_true, hb', if_false, mergeJobUpdates_slug, hs]
      intro v hv w hw hvw
      simp only [Option.mem_def, Option.some.injEq] at hv hw
      exact hb' (hfree x hs b hb (by rw [hw, hv, hvw]))
    · by_cases hb' : b.id = id
      · simp only [ha', if_false, hb', if_true, mergeJobUpdates_slug, hs]
        intro v hv w hw hvw
        simp only [Option.mem_def, Option.some.injEq] at hv hw
        exact ha' (hfree x hs a ha (by rw [hv, hw, hvw]))
      · simp only [ha', if_false, hb']
        exact hR

theorem slugsUnique_insert (jobs : List Job) (j : Job) (v : Json) (hu : SlugsUnique jobs)
    (hj : j.slug = some v) (hfresh : ∀ k ∈ jobs, k.slug ≠ some v) :
    SlugsUnique (jobs ++ [j]) := by
  unfold SlugsUnique at *
  rw [List.filterMap_append, List.nodup_append]
  refine ⟨hu, by simp [List.filterMap_cons, hj], ?_⟩
  intro w hw hw'
  simp only [List.filterMap_cons, hj, List.filterMap_nil, List.mem_singleton] at hw'
  subst hw'
  obtain ⟨k, hk, hks⟩ := List.mem_filterMap.1 hw
  exact hfresh k hk hks

/-- C5 (amended): in a store with unique primary keys and pairwise distinct slugs, the slugs
stay pairwise distinct after any create-job request and after any update-job request whose
body carries no slug or a truthy one (not `''`, `0`, `null` or `false`); an update that
sets a truthy slug held by another job changes nothing and is answered 400, or 500 when the
network simulator rejects or the slug lookup fails (the store rejects, or the slug is not a
valid key). -/
theorem slugs_stay_unique (env : Env) (s : Store) (hnd : (s.jobs.map Job.id).Nodup)
    (hu : SlugsUnique s.jobs) :
    (∀ body, SlugsUnique (createJob env body s).2.jobs) ∧
    (∀ id body, (∀ u v, body = some u → u.slug = some v → v.truthy = true) →
      SlugsUnique (updateJob env id body s).2.jobs) ∧
    (∀ id u v, u.slug = some v → v.truthy = true →
      (∃ j ∈ s.jobs, j.slug = some v ∧ j.id ≠ id) →
      (updateJob env id (some u) s).2 = s ∧
      ∃ m, (updateJob env id (some u) s).1 = .ok
        ⟨if simulateNetworkDelay.rejects env.errorDraw env.retryDraw || env.dbFault 0 ||
            !v.key.isSome
          then 500 else 400, .message m⟩) := by
  refine ⟨?_, ?_, ?_⟩
  · intro body
    rcases createJob_cases env body s with ⟨r, hr, _⟩ | ⟨jobData, v, r, hc, hr, _⟩
    · rw [hr]; exact hu
    · rw [hr]
      exact slugsUnique_insert s.jobs _ v hu (by simp [insertedJob, newJobRecord, hc.slug_eq])
        hc.fresh
  · intro id body hbody
    rcases updateJob_cases env id body s with ⟨r, hr, _⟩ | ⟨u, r, hb, hfree, hr, _⟩
    · rw [hr]; exact hu
    · rw [hr]
      refine slugsUnique_update env s.jobs id u hnd hu ?_
      intro v hv
      exact hfree v hv (hbody u v hb hv)
  · intro id u v hv hne hex
    obtain ⟨j, hj, hjs, hjid⟩ := hex
    have hfind : ∃ k, (s.jobs.find? fun j => j.slug == some v && j.id != id) = some k := by
      cases hf : s.jobs.find? (fun j => j.slug == some v && j.id != id) with
      | some k => exact ⟨k, rfl⟩
      | none =>
        have := List.find?_eq_none.1 hf j hj
        simp [hjs, hjid] at this
    obtain ⟨k, hk⟩ := hfind
    have ht : truthyField (some v) = true := by simp [truthyField, hne]
    unfold updateJob tryCatch updateJobTry
    simp only [Async.bind_apply]
    by_cases hn : simulateNetworkDelay.rejects env.errorDraw env.retryDraw
    · simp [simulateNetworkDelay, hn]
    by_cases h0 : env.dbFault 0
    · simp [simulateNetworkDelay, hn, reqJson, ht, dbJobsWhereSlugOtherFirst, dbOp, h0,
        Async.pure, hv]
    by_cases hkey : v.key.isSome = true
    · simp [simulateNetworkDelay, hn, reqJson, ht, dbJobsWhereSlugOtherFirst, dbOp, h0,
        Async.pure, hv, hkey, hk]
    · simp [simulateNetworkDelay, hn, reqJson, ht, dbJobsWhereSlugOtherFirst, dbOp, h0,
        Async.pure, hv, hkey]

/-! ## Candidate updates and the timeline -/

theorem find?_candidate_map (cs : List Candidate) (id : Nat) (f : Candidate → Candidate)
    (hf : ∀ c, (f c).id = c.id) (c : Candidate)
    (hc : (cs.find? fun x => x.id == id) = some c) :
    ((cs.map fun x => if x.id = id then f x else x).find? fun x => x.id == id) = some (f c) := by
  induction cs with
  | nil => simp at hc
  | cons a cs ih =>
    by_cases ha : a.id = id
    · simp only [List.find?_cons, ha, beq_self_eq_true, Option.some.injEq] at hc
      subst hc
      simp [List.find?_cons, ha, hf]
    · have ha' : (a.id == id) = false := by simpa using ha
      simp only [List.find?_cons, ha'] at hc
      simp [List.find?_cons, ha, ih hc]

/-- What the update handler does to the timeline of an existing candidate on a successful
request: if the body carries a truthy stage that differs from the candidate's prior stage,
exactly one timeline entry is appended, for that candidate and with the new stage; if the
body carries no stage field, none is appended; the earlier entries are unchanged. -/
theorem updateCandidate_timeline (env : Env) (id : Nat) (u : CandidateUpdates) (s : Store)
    (c : Candidate) (r : Response)
    (hc : (s.candidates.find? fun x => x.id == id) = some c)
    (hok : (updateCandidate env id (some u) s).1 = .ok r) (h200 : r.status = 200) :
    (∀ st, u.stage = some st → st.truthy = true → st ≠ c.stage →
      ∃ e, (updateCandidate env id (some u) s).2.candidateTimeline = s.candidateTimeline ++ [e] ∧
        e.candidateId = id ∧ e.stage = st) ∧
    (u.stage = none →
      (updateCandidate env id (some u) s).2.candidateTimeline = s.candidateTimeline) := by
  have hget := find?_candidate_map s.candidates id (mergeCandidateUpdates env u)
    (fun _ => rfl) c hc
  unfold updateCandidate tryCatch updateCandidateTry at hok ⊢
  simp only [Async.bind_apply] at hok ⊢
  by_cases hn : simulateNetworkDelay.rejects env.errorDraw env.retryDraw
  · simp [simulateNetworkDelay, hn] at hok
    rw [← hok] at h200; simp at h200
  by_cases h0 : env.dbFault 0
  · simp [simulateNetworkDelay, hn, reqJson, dbCandidatesGet, dbOp, h0, Async.pure] at hok
    rw [← hok] at h200; simp at h200
  by_cases h1 : env.dbFault 1
  · simp [simulateNetworkDelay, hn, reqJson, dbCandidatesGet, dbOp, h0, Async.pure, hc,
      dbCandidatesUpdate, h1] at hok
    rw [← hok] at h200; simp at h200
  by_cases h3 : env.dbFault 3
  · exfalso
    by_cases h2 : env.dbFault 2 <;>
    by_cases hst : (truthyField u.stage && u.stage.getD Json.null != c.stage) = true <;>
    · simp [simulateNetworkDelay, hn, reqJson, dbCandidatesGet, dbOp, h0, Async.pure, hc,
        dbCandidatesUpdate, h1, dbTimelineAdd, h2, h3, hst] at hok
      rw [← hok] at h200; simp at h200
  by_cases hst : (truthyField u.stage && u.stage.getD Json.null != c.stage) = true
  · by_cases h2 : env.dbFault 2
    · simp [simulateNetworkDelay, hn, reqJson, dbCandidatesGet, dbOp, h0, Async.pure, hc,
        dbCandidatesUpdate, h1, dbTimelineAdd, h2, hst] at hok
      rw [← hok] at h200; simp at h200
    constructor
    · intro st hs hne hdiff
      have hT : truthyField (some st) = true := by simp [truthyField, hne]
      refine ⟨stageChangeEntry env id c.stage st u.notes
        (nextKey (s.candidateTimeline.map TimelineEntry.id)), ?_, rfl, rfl⟩
      by_cases h4 : env.dbFault 4 <;>
      simp [simulateNetworkDelay, hn, reqJson, dbCandidatesGet, dbOp, h0, Async.pure, hc,
        dbCandidatesUpdate, h1, dbTimelineAdd, h2, h3, hT, hdiff, hget, dbJobsGet, h4, hs]
    · intro hs
      simp [hs, truthyField] at hst
  · constructor
    · intro st hs hne hdiff
      exfalso
      apply hst
      simp [hs, truthyField, hne, hdiff]
    · intro _
      by_cases h4 : env.dbFault 4 <;>
      simp [simulateNetworkDelay, hn, reqJson, dbCandidatesGet, dbOp, h0, Async.pure, hc,
        dbCandidatesUpdate, h1, h3, hst, hget, dbJobsGet, h4]

/-! ## Pagination -/

theorem slice_of_nonneg {α : Type} (xs : List α) (a b : Int) (ha : 0 ≤ a) (hb : 0 ≤ b) :
    slice xs a b = (xs.take b.toNat).drop a.toNat := by
  unfold slice sliceIndex
  have ha' : ¬ a < 0 := by omega
  have hb' : ¬ b < 0 := by omega
  simp only [ha', hb', if_false]
  apply List.ext_getElem?
  intro i
  simp only [List.getElem?_drop, List.getElem?_take]
  by_cases h1 : a.toNat ≤ xs.length
  · rw [Nat.min_eq_left h1]
    by_cases h2 : b.toNat ≤ xs.length
    · rw [Nat.min_eq_left h2]
    · rw [Nat.min_eq_right (by omega)]
      by_cases h3 : a.toNat + i < xs.length
      · have : a.toNat + i < b.toNat := by omega
        simp [h3, this]
      · have : xs[a.toNat + i]? = none := List.getElem?_eq_none (by omega)
        simp [this]
  · rw [Nat.min_eq_right (by omega)]
    have e1 : xs[xs.length + i]? = none := List.getElem?_eq_none (by omega)
    have e2 : xs[a.toNat + i]? = none := List.getElem?_eq_none (by omega)
    simp [e1, e2]

theorem totalPages_spec (total : Nat) (pageSize : Int) (h : 1 ≤ pageSize) :
    ∃ tp : Int, totalPages total pageSize = some tp ∧
      (tp - 1) * pageSize < total ∧ (total : Int) ≤ tp * pageSize := by
  have hne : pageSize ≠ 0 := by omega
  have hpos : (0 : ℚ) < (pageSize : ℚ) := by exact_mod_cast (by omega : 0 < pageSize)
  refine ⟨⌈(total : ℚ) / (pageSize : ℚ)⌉, by simp [totalPages, hne], ?_, ?_⟩
  · have h1 := Int.ceil_lt_add_one ((total : ℚ) / (pageSize : ℚ))
    have h2 : ((⌈(total : ℚ) / (pageSize : ℚ)⌉ : ℚ) - 1) * (pageSize : ℚ) < (total : ℚ) := by
      have : (⌈(total : ℚ) / (pageSize : ℚ)⌉ : ℚ) - 1 < (total : ℚ) / (pageSize : ℚ) := by
        linarith
      calc ((⌈(total : ℚ) / (pageSize : ℚ)⌉ : ℚ) - 1) * (pageSize : ℚ)
          < (total : ℚ) / (pageSize : ℚ) * (pageSize : ℚ) := mul_lt_mul_of_pos_right this hpos
        _ = (total : ℚ) := div_mul_cancel₀ _ (ne_of_gt hpos)
    exact_mod_cast h2
  · have h1 := Int.le_ceil ((total : ℚ) / (pageSize : ℚ))
    have h2 : (total : ℚ) ≤ (⌈(total : ℚ) / (pageSize : ℚ)⌉ : ℚ) * (pageSize : ℚ) := by
      calc (total : ℚ) = (total : ℚ) / (pageSize : ℚ) * (pageSize : ℚ) :=
            (div_mul_cancel₀ _ (ne_of_gt hpos)).symm
        _ ≤ (⌈(total : ℚ) / (pageSize : ℚ)⌉ : ℚ) * (pageSize : ℚ) :=
            mul_le_mul_of_nonneg_right h1 (le_of_lt hpos)
    exact_mod_cast h2

/-! ## Order of the index keys -/

theorem lexLt_total {α : Type} [DecidableEq α] (lt : α → α → Bool)
    (htot : ∀ a b, lt a b = true ∨ a = b ∨ lt b a = true) :
    ∀ l m : List α, lexLt lt l m = true ∨ l = m ∨ lexLt lt m l = true
  | [], [] => Or.inr (Or.inl rfl)
  | [], _ :: _ => Or.inl rfl
  | _ :: _, [] => Or.inr (Or.inr rfl)
  | a :: as, b :: bs => by
    rcases htot a b with h | h | h
    · left; simp [lexLt, h]
    · subst h
      rcases lexLt_total lt htot as bs with h' | h' | h'
      · left; simp [lexLt, h']
      · right; left; rw [h']
      · right; right; simp [lexLt, h']
    · right; right; simp [lexLt, h]

theorem lexLt_trans {α : Type} [DecidableEq α] (lt : α → α → Bool)
    (htrans : ∀ a b c, lt a b = true → lt b c = true → lt a c = true) :
    ∀ l m n : List α, lexLt lt l m = true → lexLt lt m n = true → lexLt lt l n = true
  | [], [], _, h, _ => by simp [lexLt] at h
  | [], _ :: _, [], _, h => by simp [lexLt] at h
  | [], _ :: _, _ :: _, _, _ => rfl
  | _ :: _, [], _, h, _ => by simp [lexLt] at h
  | _ :: _, _ :: _, [], _, h => by simp [lexLt] at h
  | a :: as, b :: bs, c :: cs, h1, h2 => by
    simp only [lexLt, Bool.or_eq_true, Bool.and_eq_true, decide_eq_true_eq] at h1 h2 ⊢
    rcases h1 with h1 | ⟨rfl, h1⟩
    · rcases h2 with h2 | ⟨rfl, _⟩
      · exact Or.inl (htrans a b c h1 h2)
      · exact Or.inl h1
    · rcases h2 with h2 | ⟨rfl, h2⟩
      · exact Or.inl h2
      · exact Or.inr ⟨rfl, lexLt_trans lt htrans as bs cs h1 h2⟩

theorem natLt_total (a b : Nat) : decide (a < b) = true ∨ a = b ∨ decide (b < a) = true := by
  simp only [decide_eq_true_eq]; omega

theorem natLt_trans (a b c : Nat) (h1 : decide (a < b) = true) (h2 : decide (b < c) = true) :
    decide (a < c) = true := by
  simp only [decide_eq_true_eq] at *; omega

theorem unitsLt_total (l m : List Nat) :
    lexLt (fun x y => decide (x < y)) l m = true ∨ l = m ∨
      lexLt (fun x y => decide (x < y)) m l = true :=
  lexLt_total _ natLt_total l m

theorem unitsLt_trans (l m n : List Nat) (h1 : lexLt (fun x y => decide (x < y)) l m = true)
    (h2 : lexLt (fun x y => decide (x < y)) m n = true) :
    lexLt (fun x y => decide (x < y)) l n = true :=
  lexLt_trans _ natLt_trans l m n h1 h2

theorem Key.lt_total (a b : Key) : Key.lt a b = true ∨ a = b ∨ Key.lt b a = true := by
  cases a <;> cases b <;> simp only [Key.lt, decide_eq_true_eq, Key.num.injEq, Key.str.injEq,
    Key.arr.injEq, true_or, or_true, reduceCtorEq, false_or, or_false]
  · omega
  · exact unitsLt_total _ _
  · exact lexLt_total _ unitsLt_total _ _

theorem Key.lt_trans (a b c : Key) (h1 : Key.lt a b = true) (h2 : Key.lt b c = true) :
    Key.lt a c = true := by
  cases a <;> cases b <;> cases c <;> simp only [Key.lt, decide_eq_true_eq] at h1 h2 ⊢ <;>
    first
      | omega
      | exact unitsLt_trans _ _ _ h1 h2
      | exact lexLt_trans _ unitsLt_trans _ _ _ h1 h2
      | simp at h1
      | simp at h2


/-! ## Traversal of an index -/

theorem entryLE_total (p q : Key × Job) : entryLE p q ∨ entryLE q p := by
  unfold entryLE
  rcases Key.lt_total p.1 q.1 with h | h | h
  · exact Or.inl (Or.inl h)
  · rcases Nat.le_total p.2.id q.2.id with h2 | h2
    · exact Or.inl (Or.inr ⟨h, h2⟩)
    · exact Or.inr (Or.inr ⟨h.symm, h2⟩)
  · exact Or.inr (Or.inl h)

theorem entryLE_trans (p q r : Key × Job) (h1 : entryLE p q) (h2 : entryLE q r) :
    entryLE p r := by
  unfold entryLE at *
  rcases h1 with h1 | ⟨e1, h1⟩
  · rcases h2 with h2 | ⟨e2, _⟩
    · exact Or.inl (Key.lt_trans _ _ _ h1 h2)
    · exact Or.inl (e2 ▸ h1)
  · rcases h2 with h2 | ⟨e2, h2⟩
    · exact Or.inl (e1 ▸ h2)
    · exact Or.inr ⟨e1.trans e2, le_trans h1 h2⟩

/-- Entries (key, record) of the index on a key. -/
theorem sortByKey_entries (key : Job → Option Key) (jobs : List Job) :
    ((jobs.filterMap fun j => (key j).map fun k => (k, j)).map Prod.snd) =
      jobs.filter fun j => (key j).isSome := by
  induction jobs with
  | nil => rfl
  | cons a jobs ih =>
    cases h : key a with
    | none => simp [List.filterMap_cons, List.filter_cons, h, ih]
    | some k =>
      simp only [List.filterMap_cons, h, Option.map_some', List.map_cons, List.filter_cons,
        Option.isSome_some, if_true, ih]

theorem sortByKey_perm (key : Job → Option Key) (jobs : List Job) :
    (sortByKey key jobs).Perm (jobs.filter fun j => (key j).isSome) := by
  unfold sortByKey
  rw [← sortByKey_entries]
  exact (List.perm_insertionSort _ _).map _

theorem sortByKey_pairwise (key : Job → Option Key) (jobs : List Job) :
    (sortByKey key jobs).Pairwise fun a b =>
      ∃ ka kb, key a = some ka ∧ key b = some kb ∧
        (Key.lt ka kb = true ∨ (ka = kb ∧ a.id ≤ b.id)) := by
  unfold sortByKey
  rw [List.pairwise_map]
  haveI : IsTotal (Key × Job) entryLE := ⟨entryLE_total⟩
  haveI : IsTrans (Key × Job) entryLE := ⟨entryLE_trans⟩
  have hsorted : (List.insertionSort entryLE
      (jobs.filterMap fun j => (key j).map fun k => (k, j))).Pairwise entryLE :=
    List.sorted_insertionSort entryLE _
  have hmem : ∀ p ∈ List.insertionSort entryLE
      (jobs.filterMap fun j => (key j).map fun k => (k, j)), key p.2 = some p.1 := by
    intro p hp
    have hp' := (List.perm_insertionSort entryLE _).mem_iff.1 hp
    obtain ⟨j, _, hj⟩ := List.mem_filterMap.1 hp'
    cases hk : key j with
    | none => simp [hk] at hj
    | some k =>
      simp only [hk, Option.map_some', Option.some.injEq] at hj
      subst hj
      exact hk
  refine List.Pairwise.imp_of_mem ?_ hsorted
  intro p q hp hq hpq
  exact ⟨p.1, q.1, hmem p hp, hmem q hq, hpq⟩

theorem orderByOrder_inFieldOrder (jobs : List Job) :
    (orderByOrder jobs).Pairwise (InFieldOrder "order") := by
  refine List.Pairwise.imp ?_ (orderByOrder_sorted jobs)
  intro a b hab
  refine ⟨.num a.order, .num b.order, by simp [fieldKey], by simp [fieldKey], ?_⟩
  unfold jobOrderLE at hab
  rcases hab with h | ⟨h1, h2⟩
  · exact Or.inl (by simp [Key.lt, h])
  · exact Or.inr ⟨by rw [h1], h2⟩

/-- The traversal of an indexed field lists the jobs that have a key there, in index order;
on any other field it rejects. -/
theorem orderBy_spec (field : String) (jobs : List Job) :
    (field ∈ indexedFields →
      ∃ S, orderBy field jobs = .ok S ∧
        S.Perm (jobs.filter fun j => (fieldKey field j).isSome) ∧
        S.Pairwise (InFieldOrder field)) ∧
    (field ∉ indexedFields → ∃ e, orderBy field jobs = .error e) := by
  constructor
  · intro hmem
    simp only [indexedFields, List.mem_cons, List.mem_singleton, List.not_mem_nil, or_false]
      at hmem
    rcases hmem with h | h | h | h | h | h | h <;> subst h
    · have hk : (fun j : Job => (some (Key.num j.id) : Option Key)) = fieldKey "id" := by
        funext j; simp [fieldKey]
      refine ⟨sortByKey (fun j => some (.num j.id)) jobs, by simp [orderBy], ?_, ?_⟩
      · rw [hk]; exact sortByKey_perm _ _
      · have := sortByKey_pairwise (fun j => some (.num j.id)) jobs
        rw [hk] at this; exact this
    · have hk : (fun j : Job => j.title.map fun t => Key.str (codeUnits t)) = fieldKey "title" := by
        funext j; simp [fieldKey]
      refine ⟨sortByKey (fun j => j.title.map fun t => .str (codeUnits t)) jobs,
        by simp [orderBy], ?_, ?_⟩
      · rw [hk]; exact sortByKey_perm _ _
      · have := sortByKey_pairwise (fun j => j.title.map fun t => .str (codeUnits t)) jobs
        rw [hk] at this; exact this
    · have hk : (fun j : Job => j.slug.bind Json.key) = fieldKey "slug" := by
        funext j; simp [fieldKey]
      refine ⟨sortByKey (fun j => j.slug.bind Json.key) jobs, by simp [orderBy], ?_, ?_⟩
      · rw [hk]; exact sortByKey_perm _ _
      · have := sortByKey_pairwise (fun j => j.slug.bind Json.key) jobs
        rw [hk] at this; exact this
    · have hk : (fun j : Job => j.status.key) = fieldKey "status" := by
        funext j; simp [fieldKey]
      refine ⟨sortByKey (fun j => j.status.key) jobs, by simp [orderBy], ?_, ?_⟩
      · rw [hk]; exact sortByKey_perm _ _
      · have := sortByKey_pairwise (fun j => j.status.key) jobs
        rw [hk] at this; exact this
    · have hk : (fun j : Job => j.tags.map fun ts => Key.arr (ts.map codeUnits)) =
          fieldKey "tags" := by
        funext j; simp [fieldKey]
      refine ⟨sortByKey (fun j => j.tags.map fun ts => .arr (ts.map codeUnits)) jobs,
        by simp [orderBy], ?_, ?_⟩
      · rw [hk]; exact sortByKey_perm _ _
      · have := sortByKey_pairwise (fun j => j.tags.map fun ts => .arr (ts.map codeUnits)) jobs
        rw [hk] at this; exact this
    · refine ⟨orderByOrder jobs, by simp [orderBy], ?_, orderByOrder_inFieldOrder jobs⟩
      have hall : (jobs.filter fun j => (fieldKey "order" j).isSome) = jobs := by
        rw [List.filter_eq_self]; intro j _; simp [fieldKey]
      rw [hall]; exact orderByOrder_perm jobs
    · have hk : (fun j : Job => (some (Key.num j.createdAt) : Option Key)) =
          fieldKey "createdAt" := by
        funext j; simp [fieldKey]
      refine ⟨sortByKey (fun j => some (.num j.createdAt)) jobs, by simp [orderBy], ?_, ?_⟩
      · rw [hk]; exact sortByKey_perm _ _
      · have := sortByKey_pairwise (fun j => some (.num j.createdAt)) jobs
        rw [hk] at this; exact this
  · intro hmem
    simp only [indexedFields, List.mem_cons, List.mem_singleton, List.not_mem_nil, or_false,
      not_or] at hmem
    obtain ⟨h1, h2, h3, h4, h5, h6, h7⟩ := hmem
    exact ⟨"KeyPath " ++ field ++ " on object store jobs is not indexed",
      by simp [orderBy, h1, h2, h3, h4, h5, h6, h7]⟩

theorem filterThrowing_ok {α : Type} (p : α → Except String Bool) (xs r : List α)
    (h : filterThrowing p xs = .ok r) :
    (∀ x ∈ xs, ∃ b, p x = .ok b) ∧ r = xs.filter fun x => decide (p x = .ok true) := by
  induction xs generalizing r with
  | nil =>
    simp only [filterThrowing, Except.ok.injEq] at h
    subst h
    simp
  | cons x xs ih =>
    simp only [filterThrowing] at h
    cases hp : p x with
    | error e => simp [hp] at h
    | ok keep =>
      cases hr : filterThrowing p xs with
      | error e => simp [hp, hr] at h
      | ok rest =>
        simp only [hp, hr, Except.ok.injEq] at h
        obtain ⟨hall, hrest⟩ := ih rest hr
        refine ⟨?_, ?_⟩
        · intro y hy
          rcases List.mem_cons.1 hy with hy | hy
          · subst hy; exact ⟨keep, hp⟩
          · exact hall y hy
        · subst h
          cases keep <;> simp [List.filter_cons, hp, hrest]

theorem filterThrowing_resolves {α : Type} (p : α → Except String Bool) (xs : List α)
    (h : ∀ x ∈ xs, ∃ b, p x = .ok b) : ∃ r, filterThrowing p xs = .ok r := by
  induction xs with
  | nil => exact ⟨[], rfl⟩
  | cons x xs ih =>
    obtain ⟨b, hb⟩ := h x (List.mem_cons_self _ _)
    obtain ⟨r, hr⟩ := ih fun y hy => h y (List.mem_cons_of_mem _ hy)
    exact ⟨if b then x :: r else r, by simp only [filterThrowing, hb, hr]⟩

/-- Where the search predicate of list-jobs answers, it answers as the search of the spec. -/
theorem jobMatchesSearch_ok (env : Env) (term : String) (j : Job) (b : Bool)
    (h : jobMatchesSearch env term j = .ok b) : b = true ↔ SearchMatches env term j := by
  unfold jobMatchesSearch at h
  unfold SearchMatches
  cases ht : j.title with
  | none => simp [ht] at h
  | some title =>
    simp only [ht] at h
    by_cases hin : includes (env.toLowerCase title) (env.toLowerCase term) = true
    · simp only [hin, if_true, Except.ok.injEq] at h
      subst h
      simp only [true_iff]
      exact Or.inl ⟨title, rfl, by simpa [includes] using hin⟩
    · have hnot : ¬ codeUnits (env.toLowerCase term) <:+: codeUnits (env.toLowerCase title) := by
        simpa [includes] using hin
      simp only [hin] at h
      cases hg : j.tags with
      | none => simp [hg] at h
      | some tags =>
        simp only [hg, Bool.false_eq_true, if_false, Except.ok.injEq] at h
        subst h
        constructor
        · intro hany
          obtain ⟨tag, hmem, hinc⟩ := List.any_eq_true.1 hany
          exact Or.inr ⟨tags, tag, rfl, hmem, by simpa [includes] using hinc⟩
        · rintro (⟨t, ht', hinc⟩ | ⟨ts, tag, hts, hmem, hinc⟩)
          · cases ht'
            exact absurd hinc hnot
          · cases hts
            exact List.any_eq_true.2 ⟨tag, hmem, by simpa [includes] using hinc⟩

theorem jobMatchesSearch_resolves (env : Env) (term : String) (j : Job)
    (ht : j.title.isSome = true) (hg : j.tags.isSome = true) :
    ∃ b, jobMatchesSearch env term j = .ok b := by
  unfold jobMatchesSearch
  cases h1 : j.title with
  | none => simp [h1] at ht
  | some title =>
    cases h2 : j.tags with
    | none => simp [h2] at hg
    | some tags =>
      by_cases hin : includes (env.toLowerCase title) (env.toLowerCase term) = true
      · exact ⟨true, by simp [hin]⟩
      · exact ⟨tags.any fun tag => includes (env.toLowerCase tag) (env.toLowerCase term),
          by simp [hin]⟩

/-- The list of list-jobs, where the query yields one: the jobs that have a key in the index
of the sort field and pass the filters, each as often as it is stored, in index order. -/
theorem jobsQuery_ok (env : Env) (q : JobsQuery) (jobs L : List Job) (field : String)
    (hfield : IsSortField q field) (h : jobsQuery env q jobs = .ok L) :
    ∃ keep : Job → Bool,
      (∀ j ∈ jobs, keep j = true ↔ ((fieldKey field j).isSome = true ∧ PassesFilters env q j)) ∧
      L.Perm (jobs.filter keep) ∧ L.Pairwise (InFieldOrder field) := by
  have hsort : (if truthy q.sort then q.sort.getD "" else "order") = field := by
    rcases hfield with ⟨h1, h2⟩ | ⟨h1 | h1, h2⟩
    · simp [h1, truthy, h2]
    · simp [h1, truthy, h2]
    · simp [h1, truthy, h2]
  unfold jobsQuery at h
  rw [hsort] at h
  by_cases hidx : field ∈ indexedFields
  swap
  · obtain ⟨e, he⟩ := (orderBy_spec field jobs).2 hidx
    simp [he] at h
  obtain ⟨S, hS, hperm, hpair⟩ := (orderBy_spec field jobs).1 hidx
  simp only [hS] at h
  -- the search filter
  have hsearch : ∃ F, (if truthy q.search then
        filterThrowing (jobMatchesSearch env (q.search.getD "")) S else .ok S) = .ok F ∧
      F = S.filter (fun j => !truthy q.search ||
        decide (jobMatchesSearch env (q.search.getD "") j = .ok true)) ∧
      (truthy q.search = true → ∀ j ∈ S, ∃ b, jobMatchesSearch env (q.search.getD "") j = .ok b) := by
    by_cases hs : truthy q.search = true
    · cases hf : filterThrowing (jobMatchesSearch env (q.search.getD "")) S with
      | error e => simp [hs, hf] at h
      | ok F =>
        obtain ⟨hall, hF⟩ := filterThrowing_ok _ _ _ hf
        exact ⟨F, by simp [hs], by simp [hs, hF], fun _ => hall⟩
    · exact ⟨S, by simp [hs], by simp [hs], fun h' => absurd h' hs⟩
  obtain ⟨F, hF, hFeq, hres⟩ := hsearch
  simp only [hF, Except.ok.injEq] at h
  have hL : L = F.filter (fun j => !truthy q.status ||
      decide (j.status = .str (q.status.getD ""))) := by
    by_cases hst : truthy q.status = true
    · simp [hst] at h
      simp [hst, ← h]
    · simp [hst] at h
      simp [hst, ← h]
  let keep : Job → Bool := fun j =>
    (fieldKey field j).isSome &&
      ((!truthy q.search || decide (jobMatchesSearch env (q.search.getD "") j = .ok true)) &&
        (!truthy q.status || decide (j.status = .str (q.status.getD ""))))
  refine ⟨keep, ?_, ?_, ?_⟩
  · intro j hj
    by_cases hk : (fieldKey field j).isSome = true
    swap
    · simp [keep, hk]
    have hjS : j ∈ S := hperm.mem_iff.2 (List.mem_filter.2 ⟨hj, hk⟩)
    have hsrch : (!truthy q.search ||
          decide (jobMatchesSearch env (q.search.getD "") j = .ok true)) = true ↔
        ∀ term, q.search = some term → term ≠ "" → SearchMatches env term j := by
      cases hq : q.search with
      | none => simp [truthy]
      | some term =>
        by_cases hterm : term = ""
        · simp [truthy, hterm]
        · have hs : truthy q.search = true := by simp [truthy, hq, hterm]
          obtain ⟨b, hb⟩ := hres hs j hjS
          rw [hq] at hb
          have hiff := jobMatchesSearch_ok env term j b hb
          simp only [Option.getD_some] at hb
          have hne : (term != "") = true := by simp [hterm]
          simp only [truthy, hne, Bool.not_true, Bool.false_or, Option.getD_some,
            decide_eq_true_eq, hb, Except.ok.injEq, Option.some.injEq, forall_eq', ne_eq, hterm,
            not_false_eq_true, forall_const]
          exact hiff
    have hstat : (!truthy q.status || decide (j.status = .str (q.status.getD ""))) = true ↔
        ∀ st, q.status = some st → st ≠ "" → j.status = .str st := by
      cases hq : q.status with
      | none => simp [truthy]
      | some st =>
        by_cases hst : st = ""
        · simp [truthy, hst]
        · simp [truthy, hst]
    simp only [keep, hk, Bool.true_and, Bool.and_eq_true, true_and, PassesFilters]
    rw [hsrch, hstat]
  · rw [hL, hFeq, List.filter_filter]
    have hfil : (jobs.filter keep) =
        (jobs.filter fun j => (fieldKey field j).isSome).filter (fun j =>
          (!truthy q.search || decide (jobMatchesSearch env (q.search.getD "") j = .ok true)) &&
            (!truthy q.status || decide (j.status = .str (q.status.getD "")))) := by
      rw [List.filter_filter]
      apply List.filter_congr
      intro j _
      simp only [keep]
      rw [Bool.and_comm]
    rw [hfil]
    have := hperm.filter (fun j =>
          (!truthy q.search || decide (jobMatchesSearch env (q.search.getD "") j = .ok true)) &&
            (!truthy q.status || decide (j.status = .str (q.status.getD ""))))
    refine List.Perm.trans ?_ this
    apply List.Perm.of_eq
    apply List.filter_congr
    intro j _
    rw [Bool.and_comm]
  · rw [hL, hFeq]
    exact (hpair.sublist (List.filter_sublist _)).sublist (List.filter_sublist _)

/-- The query of list-jobs yields a list when the sort field is indexed and, under a search
term, every job has a title and tags. -/
theorem jobsQuery_resolves (env : Env) (q : JobsQuery) (jobs : List Job) (field : String)
    (hfield : IsSortField q field) (hidx : field ∈ indexedFields)
    (hsearch : ∀ term, q.search = some term → term ≠ "" →
      ∀ j ∈ jobs, j.title.isSome = true ∧ j.tags.isSome = true) :
    ∃ L, jobsQuery env q jobs = .ok L := by
  have hsort : (if truthy q.sort then q.sort.getD "" else "order") = field := by
    rcases hfield with ⟨h1, h2⟩ | ⟨h1 | h1, h2⟩
    · simp [h1, truthy, h2]
    · simp [h1, truthy, h2]
    · simp [h1, truthy, h2]
  obtain ⟨S, hS, hperm, _⟩ := (orderBy_spec field jobs).1 hidx
  unfold jobsQuery
  rw [hsort]
  simp only [hS]
  by_cases hs : truthy q.search = true
  · cases hq : q.search with
    | none => simp [truthy, hq] at hs
    | some term =>
      have hterm : term ≠ "" := by
        intro h0
        simp [truthy, hq, h0] at hs
      have hall : ∀ j ∈ S, ∃ b, jobMatchesSearch env term j = .ok b := by
        intro j hj
        have hj' : j ∈ jobs := (List.mem_filter.1 (hperm.mem_iff.1 hj)).1
        obtain ⟨h1, h2⟩ := hsearch term hq hterm j hj'
        exact jobMatchesSearch_resolves env term j h1 h2
      obtain ⟨F, hF⟩ := filterThrowing_resolves _ _ hall
      rw [hq] at hs
      simp only [hs, if_true, Option.getD_some, hF]
      exact ⟨_, rfl⟩
  · simp only [hs]
    exact ⟨_, rfl⟩

/-- When the query of list-jobs fails, on a sort field that is not indexed, the handler
rejects. -/
theorem jobsQuery_not_indexed (env : Env) (q : JobsQuery) (jobs : List Job) (field : String)
    (hfield : IsSortField q field) (hidx : field ∉ indexedFields) :
    ∃ e, jobsQuery env q jobs = .error e := by
  have hsort : (if truthy q.sort then q.sort.getD "" else "order") = field := by
    rcases hfield with ⟨h1, h2⟩ | ⟨h1 | h1, h2⟩
    · simp [h1, truthy, h2]
    · simp [h1, truthy, h2]
    · simp [h1, truthy, h2]
  obtain ⟨e, he⟩ := (orderBy_spec field jobs).2 hidx
  unfold jobsQuery
  rw [hsort]
  exact ⟨e, by simp [he]⟩

theorem dbJobsQuery_cases (env : Env) (q : JobsQuery) (s : Store) :
    (∀ L, (dbJobsQuery env 0 q s).1 = .ok L →
      env.dbFault 0 = false ∧ jobsQuery env q s.jobs = .ok L ∧
        dbJobsQuery env 0 q s = (.ok L, s)) ∧
    (∀ e, (dbJobsQuery env 0 q s).1 = .error e → dbJobsQuery env 0 q s = (.error e, s)) ∧
    (env.dbFault 0 = false → ∀ L, jobsQuery env q s.jobs = .ok L →
      (dbJobsQuery env 0 q s).1 = .ok L) ∧
    (∀ e, jobsQuery env q s.jobs = .error e → ∃ e', (dbJobsQuery env 0 q s).1 = .error e') := by
  unfold dbJobsQuery
  simp only [Async.bind_apply]
  by_cases h0 : env.dbFault 0 = true
  · simp [dbOp, h0, Async.fail]
  · cases hj : jobsQuery env q s.jobs with
    | error e => simp [dbOp, h0, hj, Async.fail, getStore]
    | ok jobs => simp [dbOp, h0, hj, Async.pure, getStore]

/-- C7 (amended): for `page ≥ 1` and `pageSize ≥ 1`, with `field` the sort field of the
request (the `sort` parameter, `order` when there is none):
(1) when the query of list-jobs yields a list `L`, the handler answers 200 with exactly the
elements of `L` at the positions from `(page-1)*pageSize` up to but excluding
`page*pageSize` (cut at the end of `L`), with `total` the length of `L` and `totalPages` the
least integer `tp` with `total ≤ tp * pageSize`, that is `ceil(total / pageSize)`; and `L` is
the filtered, sorted job list: the stored jobs that have a key in the index of `field`, that
contain the search term (when one is given) in the title or in a tag, letter case aside,
and that have the requested status (when one is given), each as often as it is stored, in
the order of that index, ties by id;
(2) the query yields a list when the store answers, `field` is one of the indexed fields
and, under a search term, every job has a title and tags;
(3) when the query fails, list-jobs returns no page: the error escapes the handler and the
store is unchanged; it fails whenever `field` is not indexed. -/
theorem getJobs_page (env : Env) (q : JobsQuery) (s : Store) (page pageSize : Int)
    (field : String) (hpage : q.page = some page) (hsize : q.pageSize = some pageSize)
    (h1 : 1 ≤ page) (h2 : 1 ≤ pageSize) (hfield : IsSortField q field) :
    (∀ L, (dbJobsQuery env 0 q s).1 = .ok L →
      (∃ tp : Int,
        getJobs env q s = (.ok ⟨200, .jobPage
          ((L.take (page * pageSize).toNat).drop ((page - 1) * pageSize).toNat)
          page pageSize L.length (some tp)⟩, s) ∧
        (tp - 1) * pageSize < L.length ∧ (L.length : Int) ≤ tp * pageSize) ∧
      ∃ keep : Job → Bool,
        (∀ j ∈ s.jobs,
          keep j = true ↔ ((fieldKey field j).isSome = true ∧ PassesFilters env q j)) ∧
        L.Perm (s.jobs.filter keep) ∧ L.Pairwise (InFieldOrder field)) ∧
    (env.dbFault 0 = false → field ∈ indexedFields →
      (∀ term, q.search = some term → term ≠ "" →
        ∀ j ∈ s.jobs, j.title.isSome = true ∧ j.tags.isSome = true) →
      ∃ L, (dbJobsQuery env 0 q s).1 = .ok L) ∧
    (∀ e, (dbJobsQuery env 0 q s).1 = .error e → getJobs env q s = (.error e, s)) ∧
    (field ∉ indexedFields → ∃ e, (getJobs env q s).1 = .error e) := by
  obtain ⟨hok, herr, hres, hfail⟩ := dbJobsQuery_cases env q s
  have hescape : ∀ e, (dbJobsQuery env 0 q s).1 = .error e →
      getJobs env q s = (.error e, s) := by
    intro e he
    have hq := herr e he
    unfold getJobs noCatch getJobsBody
    simp only [Async.bind_apply, hq]
  refine ⟨?_, ?_, hescape, ?_⟩
  · intro L hL
    obtain ⟨_, hquery, hq⟩ := hok L hL
    refine ⟨?_, jobsQuery_ok env q s.jobs L field hfield hquery⟩
    obtain ⟨tp, htp, hlo, hhi⟩ := totalPages_spec L.length pageSize h2
    refine ⟨tp, ?_, hlo, hhi⟩
    have hstart : 0 ≤ (page - 1) * pageSize := Int.mul_nonneg (by omega) (by omega)
    have hstop : (page - 1) * pageSize + pageSize = page * pageSize := by ring
    unfold getJobs noCatch getJobsBody
    simp only [Async.bind_apply, hq, hpage, hsize, Option.getD_some, Async.pure_apply, htp]
    rw [slice_of_nonneg L _ _ hstart (by omega), hstop]
  · intro h0 hidx hsearch
    obtain ⟨L, hL⟩ := jobsQuery_resolves env q s.jobs field hfield hidx hsearch
    exact ⟨L, hres h0 L hL⟩
  · intro hidx
    obtain ⟨e, he⟩ := jobsQuery_not_indexed env q s.jobs field hfield hidx
    obtain ⟨e', he'⟩ := hfail e he
    exact ⟨e', by rw [hescape e' he']⟩

theorem tryCatch_catches (body : Async Response) (msg : String → Body) :
    Catches (tryCatch body fun e => ⟨500, msg e⟩) body := by
  intro s
  unfold tryCatch
  cases h : body s with
  | mk o s' =>
    cases o with
    | ok r => exact ⟨⟨r, rfl⟩, fun e he => by simp at he⟩
    | error e => exact ⟨⟨_, rfl⟩, fun e' _ => ⟨msg e, rfl⟩⟩

theorem noCatch_escapes (body : Async Response) : Escapes (noCatch body) body := by
  intro s e h
  exact h

theorem guarded_of_fails {β : Type} (env : Env) (simulated : Bool)
    (body : Option β → Async Response) (msg : String → Body)
    (hnone : ∀ s, ∃ e, (body none s).1 = .error e)
    (hdown : StoreDown env → ∀ b s, ∃ e, (body b s).1 = .error e)
    (hsim : simulated = true → simulateNetworkDelay.rejects env.errorDraw env.retryDraw = true →
      ∀ b s, ∃ e, (body b s).1 = .error e) :
    Guarded env simulated (fun b => tryCatch (body b) fun e => ⟨500, msg e⟩) body := by
  refine ⟨fun b => tryCatch_catches _ _, ?_, ?_, ?_⟩
  · intro s
    obtain ⟨e, he⟩ := hnone s
    exact (tryCatch_catches (body none) msg s).2 e he
  · intro hd b s
    obtain ⟨e, he⟩ := hdown hd b s
    exact (tryCatch_catches (body b) msg s).2 e he
  · intro h1 h2 b s
    obtain ⟨e, he⟩ := hsim h1 h2 b s
    exact (tryCatch_catches (body b) msg s).2 e he

theorem createJob_guarded (env : Env) : Guarded env true (createJob env) (createJobTry env) := by
  refine guarded_of_fails env true (createJobTry env) _ ?_ ?_ ?_
  · intro s
    unfold createJobTry
    by_cases hn : simulateNetworkDelay.rejects env.errorDraw env.retryDraw <;>
      simp [simulateNetworkDelay, hn, reqJson]
  · intro hd b s
    have h0 := hd 0
    unfold createJobTry
    by_cases hn : simulateNetworkDelay.rejects env.errorDraw env.retryDraw <;>
      cases b <;> simp [simulateNetworkDelay, hn, reqJson, dbJobsWhereSlugFirst, dbOp, h0, Async.pure]
  · intro _ hn b s
    unfold createJobTry
    simp [simulateNetworkDelay, hn]

theorem updateJob_guarded (env : Env) (id : Nat) :
    Guarded env true (updateJob env id) (updateJobTry env id) := by
  refine guarded_of_fails env true (updateJobTry env id) _ ?_ ?_ ?_
  · intro s
    unfold updateJobTry
    by_cases hn : simulateNetworkDelay.rejects env.errorDraw env.retryDraw <;>
      simp [simulateNetworkDelay, hn, reqJson]
  · intro hd b s
    have h0 := hd 0
    have h1 := hd 1
    unfold updateJobTry
    by_cases hn : simulateNetworkDelay.rejects env.errorDraw env.retryDraw
    · simp [simulateNetworkDelay, hn]
    cases b with
    | none => simp [simulateNetworkDelay, hn, reqJson]
    | some u =>
      by_cases ht : truthyField u.slug = true <;>
        simp [simulateNetworkDelay, hn, reqJson, ht, dbJobsWhereSlugOtherFirst, dbOp, h0,
          Async.pure, dbJobsUpdate, h1]
  · intro _ hn b s
    unfold updateJobTry
    simp [simulateNetworkDelay, hn]

theorem reorderJob_guarded (env : Env) (id : Nat) :
    Guarded env true (reorderJob env id) (reorderJobTry env id) := by
  refine guarded_of_fails env true (reorderJobTry env id) _ ?_ ?_ ?_
  · intro s
    unfold reorderJobTry
    by_cases hn : simulateNetworkDelay.rejects env.errorDraw env.retryDraw <;>
      simp [simulateNetworkDelay, hn, reqJson]
  · intro hd b s
    have h0 := hd 0
    unfold reorderJobTry
    by_cases hn : simulateNetworkDelay.rejects env.errorDraw env.retryDraw <;>
      cases b <;> simp [simulateNetworkDelay, hn, reqJson, dbJobsOrderByOrder, dbOp, h0, Async.pure]
  · intro _ hn b s
    unfold reorderJobTry
    simp [simulateNetworkDelay, hn]

theorem updateCandidate_guarded (env : Env) (id : Nat) :
    Guarded env true (updateCandidate env id) (updateCandidateTry env id) := by
  refine guarded_of_fails env true (updateCandidateTry env id) _ ?_ ?_ ?_
  · intro s
    unfold updateCandidateTry
    by_cases hn : simulateNetworkDelay.rejects env.errorDraw env.retryDraw <;>
      simp [simulateNetworkDelay, hn, reqJson]
  · intro hd b s
    have h0 := hd 0
    unfold updateCandidateTry
    by_cases hn : simulateNetworkDelay.rejects env.errorDraw env.retryDraw <;>
      cases b <;> simp [simulateNetworkDelay, hn, reqJson, dbCandidatesGet, dbOp, h0, Async.pure]
  · intro _ hn b s
    unfold updateCandidateTry
    simp [simulateNetworkDelay, hn]

theorem putAssessment_guarded (env : Env) (jobId : Nat) :
    Guarded env true (putAssessment env jobId) (putAssessmentTry env jobId) := by
  refine guarded_of_fails env true (putAssessmentTry env jobId) _ ?_ ?_ ?_
  · intro s
    unfold putAssessmentTry
    by_cases hn : simulateNetworkDelay.rejects env.errorDraw env.retryDraw <;>
      simp [simulateNetworkDelay, hn, reqJson]
  · intro hd b s
    have h0 := hd 0
    unfold putAssessmentTry
    by_cases hn : simulateNetworkDelay.rejects env.errorDraw env.retryDraw <;>
      cases b <;>
      simp [simulateNetworkDelay, hn, reqJson, dbAssessmentsWhereJobFirst, dbOp, h0, Async.pure]
  · intro _ hn b s
    unfold putAssessmentTry
    simp [simulateNetworkDelay, hn]

theorem submitAssessment_guarded (env : Env) (jobId : Nat) :
    Guarded env false (submitAssessment env jobId) (submitAssessmentTry env jobId) := by
  refine guarded_of_fails env false (submitAssessmentTry env jobId) _ ?_ ?_ ?_
  · intro s
    simp [submitAssessmentTry, reqJson]
  · intro hd b s
    have h0 := hd 0
    unfold submitAssessmentTry
    cases b <;> simp [reqJson, dbResponsesAdd, dbOp, h0, Async.pure]
  · intro h
    simp at h

/-- C8 (amended): the six write handlers whose whole body is wrapped in `try`/`catch` (create
job, update job, reorder job, update candidate, put assessment, submit assessment) answer
every request, and answer 500 whenever a step of their body fails, be it the network
simulator, reading the request body or an operation on the store; the login handler does so
once the request body has been read; out of the five read handlers (list jobs, list
candidates, get candidate, get timeline, get assessment), which have no `catch`, a failing
step escapes, as when the store rejects. -/
theorem handlers_catch_or_escape (env : Env) :
    Guarded env true (createJob env) (createJobTry env) ∧
    (∀ id, Guarded env true (updateJob env id) (updateJobTry env id)) ∧
    (∀ id, Guarded env true (reorderJob env id) (reorderJobTry env id)) ∧
    (∀ id, Guarded env true (updateCandidate env id) (updateCandidateTry env id)) ∧
    (∀ jobId, Guarded env true (putAssessment env jobId) (putAssessmentTry env jobId)) ∧
    (∀ jobId, Guarded env false (submitAssessment env jobId) (submitAssessmentTry env jobId)) ∧
    (∀ b, Catches (login env (some b)) (loginTry env b) ∧
      (StoreDown env → ∀ s, ∃ m, (login env (some b) s).1 = .ok ⟨500, m⟩)) ∧
    (∀ q, Escapes (getJobs env q) (getJobsBody env q) ∧
      (StoreDown env → ∀ s, ∃ e, (getJobs env q s).1 = .error e)) ∧
    (∀ q, Escapes (getCandidates env q) (getCandidatesBody env q) ∧
      (StoreDown env → ∀ s, ∃ e, (getCandidates env q s).1 = .error e)) ∧
    (∀ id, Escapes (getCandidate env id) (getCandidateBody env id) ∧
      (StoreDown env → ∀ s, ∃ e, (getCandidate env id s).1 = .error e)) ∧
    (∀ id, Escapes (getTimeline env id) (getTimelineBody env id) ∧
      (StoreDown env → ∀ s, ∃ e, (getTimeline env id s).1 = .error e)) ∧
    (∀ jobId, Escapes (getAssessment env jobId) (getAssessmentBody env jobId) ∧
      (StoreDown env → ∀ s, ∃ e, (getAssessment env jobId s).1 = .error e)) := by
  refine ⟨createJob_guarded env, updateJob_guarded env, reorderJob_guarded env,
    updateCandidate_guarded env, putAssessment_guarded env, submitAssessment_guarded env,
    ?_, ?_, ?_, ?_, ?_, ?_⟩
  · intro b
    have hc : Catches (login env (some b)) (loginTry env b) := by
      intro s
      have h := tryCatch_catches (loginTry env b) (fun _ => Body.login false none none none) s
      simpa [login, reqJson, Async.pure] using h
    refine ⟨hc, ?_⟩
    intro hd s
    have h0 := hd 0
    refine (hc s).2 "store operation failed" ?_
    unfold loginTry
    simp [dbUsersWhereEmailFirst, dbOp, h0]
  · intro q
    refine ⟨noCatch_escapes _, ?_⟩
    intro hd s
    have h0 := hd 0
    simp [getJobs, noCatch, getJobsBody, dbJobsQuery, dbOp, h0]
  · intro q
    refine ⟨noCatch_escapes _, ?_⟩
    intro hd s
    have h0 := hd 0
    simp [getCandidates, noCatch, getCandidatesBody, dbCandidatesNewestFirst, dbOp, h0]
  · intro id
    refine ⟨noCatch_escapes _, ?_⟩
    intro hd s
    have h0 := hd 0
    simp [getCandidate, noCatch, getCandidateBody, dbCandidatesGet, dbOp, h0]
  · intro id
    refine ⟨noCatch_escapes _, ?_⟩
    intro _ s
    simp [getTimeline, noCatch, getTimelineBody]
  · intro jobId
    refine ⟨noCatch_escapes _, ?_⟩
    intro hd s
    have h0 := hd 0
    simp [getAssessment, noCatch, getAssessmentBody, dbAssessmentsWhereJobFirst, dbOp, h0]

/-! ## Seeded timelines -/

theorem jsIndexOf_stages (k : Nat) (st : String) (h : stages[k]? = some st) :
    jsIndexOf stages st = (k : Int) := by
  have hk : k < 6 := by
    by_contra hge
    have : stages[k]? = none := List.getElem?_eq_none (by simp [stages]; omega)
    rw [this] at h
    simp at h
  interval_cases k <;> simp [stages] at h <;> subst h <;> decide

theorem candidateTimelineEntries_of_stage (id : Nat) (c : SeedCandidate) (k : Nat)
    (h : stages[k]? = some c.stage) :
    candidateTimelineEntries id c = (List.range (k + 1)).map fun i =>
      { candidateId := id, stage := stages.getD i "undefined",
        timestamp := c.createdAt + (i : Int) * 24 * 60 * 60 * 1000, notes := stageNote i } := by
  unfold candidateTimelineEntries
  rw [jsIndexOf_stages k c.stage h]
  have : ((k : Int) + 1).toNat = k + 1 := by omega
  simp only [this]

theorem candidateTimelineEntries_id (id : Nat) (c : SeedCandidate) :
    ∀ e ∈ candidateTimelineEntries id c, e.candidateId = id := by
  intro e he
  unfold candidateTimelineEntries at he
  simp only [List.mem_map] at he
  obtain ⟨i, _, rfl⟩ := he
  rfl

/-- Entries derived for the candidates that receive the keys `a, a+1, ...`. -/
theorem timelines_from_ge (cs : List SeedCandidate) :
    ∀ (a : Nat), ∀ e ∈ ((List.range' a cs.length).zip cs).flatMap
      (fun p => candidateTimelineEntries p.1 p.2), a ≤ e.candidateId := by
  induction cs with
  | nil => intro a e he; simp at he
  | cons c cs ih =>
    intro a e he
    simp only [List.length_cons, List.range'_succ, List.zip_cons_cons, List.flatMap_cons,
      List.mem_append] at he
    rcases he with he | he
    · exact le_of_eq (candidateTimelineEntries_id a c e he).symm
    · exact le_trans (Nat.le_succ a) (ih (a + 1) e he)

theorem timelines_from_filter (cs : List SeedCandidate) :
    ∀ (a n : Nat) (c : SeedCandidate), cs[n]? = some c →
      (((List.range' a cs.length).zip cs).flatMap
        (fun p => candidateTimelineEntries p.1 p.2)).filter (fun e => e.candidateId = a + n) =
      candidateTimelineEntries (a + n) c := by
  induction cs with
  | nil => intro a n c h; simp at h
  | cons d cs ih =>
    intro a n c h
    simp only [List.length_cons, List.range'_succ, List.zip_cons_cons, List.flatMap_cons,
      List.filter_append]
    cases n with
    | zero =>
      simp only [List.getElem?_cons_zero, Option.some.injEq] at h
      subst h
      have h1 : (candidateTimelineEntries a d).filter (fun e => e.candidateId = a + 0) =
          candidateTimelineEntries a d := by
        rw [List.filter_eq_self]
        intro e he
        simp [candidateTimelineEntries_id a d e he]
      have h2 : (((List.range' (a + 1) cs.length).zip cs).flatMap
          (fun p => candidateTimelineEntries p.1 p.2)).filter
            (fun e => e.candidateId = a + 0) = [] := by
        rw [List.filter_eq_nil_iff]
        intro e he
        have := timelines_from_ge cs (a + 1) e he
        simp only [Nat.add_zero, decide_eq_true_eq]
        omega
      rw [h1, h2, List.append_nil]
      rfl
    | succ m =>
      simp only [List.getElem?_cons_succ] at h
      have h1 : (candidateTimelineEntries a d).filter (fun e => e.candidateId = a + (m + 1)) =
          [] := by
        rw [List.filter_eq_nil_iff]
        intro e he
        have := candidateTimelineEntries_id a d e he
        simp only [decide_eq_true_eq]
        omega
      have h2 := ih (a + 1) m c h
      have e3 : a + 1 + m = a + (m + 1) := by omega
      rw [e3] at h2
      rw [h1, h2, List.nil_append]

/-- C10: a seeded candidate whose stage is the k-th of the fixed stage ordering gets exactly
`k+1` timeline entries; for each `i ≤ k` the i-th has the i-th stage of the ordering and the
timestamp `createdAt` plus `i` days; so the first is `applied` at `createdAt` and the last
carries the candidate's current stage. -/
theorem seed_timeline_of_candidate (existing : List Nat) (candidates : List SeedCandidate)
    (n k id : Nat) (c : SeedCandidate) (hc : candidates[n]? = some c)
    (hid : (bulkAddKeys existing candidates.length)[n]? = some id)
    (hk : stages[k]? = some c.stage) :
    ((seedTimelines existing candidates).filter
        fun e => e.candidateId = id).length = k + 1 ∧
    (∀ i, i ≤ k →
      (((seedTimelines existing candidates).filter
          fun e => e.candidateId = id)[i]?).map
            (fun e => (some e.stage, e.timestamp)) =
        some (stages[i]?, c.createdAt + (i : Int) * (24 * 60 * 60 * 1000))) ∧
    (((seedTimelines existing candidates).filter
        fun e => e.candidateId = id).head?).map
          (fun e => (e.stage, e.timestamp)) = some ("applied", c.createdAt) ∧
    (((seedTimelines existing candidates).filter
        fun e => e.candidateId = id).getLast?).map
          (fun e => e.stage) = some c.stage := by
  have hidn : id = nextKey existing + n := by
    have hn : n < candidates.length := by
      by_contra hge
      have : candidates[n]? = none := List.getElem?_eq_none (by omega)
      rw [this] at hc
      simp at hc
    unfold bulkAddKeys at hid
    rw [List.getElem?_range' _ _ hn] at hid
    simp at hid
    omega
  subst hidn
  have hfilter : (seedTimelines existing candidates).filter
      (fun e => e.candidateId = nextKey existing + n) =
        candidateTimelineEntries (nextKey existing + n) c :=
    timelines_from_filter candidates (nextKey existing) n c hc
  rw [hfilter, candidateTimelineEntries_of_stage _ c k hk]
  have hk6 : k < 6 := by
    by_contra hge
    have : stages[k]? = none := List.getElem?_eq_none (by simp [stages]; omega)
    rw [this] at hk
    simp at hk
  refine ⟨by simp, ?_, ?_, ?_⟩
  · intro i hi
    have hi' : i < k + 1 := by omega
    have hi6 : i < stages.length := by simp [stages]; omega
    simp only [List.getElem?_map, List.getElem?_range hi', Option.map_some']
    have hmul : (i : Int) * 24 * 60 * 60 * 1000 = (i : Int) * (24 * 60 * 60 * 1000) := by ring
    rw [List.getD_eq_getElem _ _ hi6, List.getElem?_eq_getElem hi6, hmul]
  · simp [List.range_succ_eq_map, stages]
  · rw [List.range_succ, List.map_append, List.map_singleton, List.getLast?_concat]
    simp only [Option.map_some']
    have hk' : k < stages.length := by simp [stages]; omega
    rw [List.getD_eq_getElem _ _ hk']
    rw [List.getElem?_eq_getElem hk'] at hk
    exact congrArg some (Option.some.inj hk)

theorem order_dense_after_requests_witness :
    (threeJobs.jobs.map Job.id).Nodup ∧ DenseOrder threeJobs.jobs ∧
      DenseOrder (runJobRequests exampleRequests threeJobs).jobs :=
  ⟨by decide, by decide,
    order_dense_after_requests exampleRequests threeJobs (by decide) (by decide)⟩

theorem reorder_places_job_witness :
    orderOf (reorderJob calmEnv 1 (some ⟨some 0, some 2⟩) threeJobs).2.jobs 1 = some 1 ∧
      orderOf (reorderJob calmEnv 1 (some ⟨some 0, some 2⟩) threeJobs).2.jobs 2 = some 0 ∧
      orderOf (reorderJob calmEnv 1 (some ⟨some 0, some 2⟩) threeJobs).2.jobs 3 = some 2 :=
  ⟨(reorder_places_job calmEnv threeJobs (exampleJob 1 "a" 0) 2 (by decide) (by decide)
      (by decide) (by decide) (by decide) (by with_unfolding_all decide)).1,
    by with_unfolding_all decide, by with_unfolding_all decide⟩

theorem reorder_idempotent_witness :
    (reorderJob calmEnv 1 (some ⟨some 0, some 2⟩) threeJobs).1 = .ok ⟨200, .success⟩ ∧
      reorderJob calmEnv 1 (some ⟨some 0, some 2⟩)
          (reorderJob calmEnv 1 (some ⟨some 0, some 2⟩) threeJobs).2
        = (.ok ⟨200, .success⟩, (reorderJob calmEnv 1 (some ⟨some 0, some 2⟩) threeJobs).2) :=
  ⟨by with_unfolding_all decide,
    (reorder_idempotent calmEnv calmEnv 1 (some ⟨some 0, some 2⟩) threeJobs (by decide)
      (by with_unfolding_all decide)).1⟩

theorem createJob_duplicate_slug_witness :
    (∃ j ∈ threeJobs.jobs, j.slug = some (.str "a")) ∧
      (createJob calmEnv (some duplicateSlugData) threeJobs).2 = threeJobs ∧
      ∃ m, (createJob calmEnv (some duplicateSlugData) threeJobs).1 = .ok
        ⟨if simulateNetworkDelay.rejects calmEnv.errorDraw calmEnv.retryDraw ||
            calmEnv.dbFault 0 || !(Json.str "a").key.isSome
          then 500 else 400, .message m⟩ :=
  ⟨⟨exampleJob 1 "a" 0, by decide, rfl⟩,
    createJob_duplicate_slug calmEnv threeJobs duplicateSlugData (.str "a") rfl
      ⟨exampleJob 1 "a" 0, by decide, rfl⟩⟩

/-- C4 as stated fails: the slug `a` is held by a stored job, the network simulator rejects,
and the create handler answers 500, not 400. -/
theorem createJob_duplicate_slug_answers_500 :
    (threeJobs.jobs.map Job.slug).contains duplicateSlugData.slug = true ∧
      (createJob stormEnv (some duplicateSlugData) threeJobs).1 =
        .ok ⟨500, .message "Failed to create job: Simulated network error"⟩ := by
  with_unfolding_all decide

theorem slugs_stay_unique_witness :
    ((threeJobs.jobs.map Job.id).Nodup ∧ SlugsUnique threeJobs.jobs) ∧
      SlugsUnique (updateJob calmEnv 2 (some (slugUpdate (.str "z"))) threeJobs).2.jobs ∧
      (updateJob calmEnv 2 (some (slugUpdate (.str "a"))) threeJobs).2 = threeJobs :=
  ⟨⟨by decide, by decide⟩,
    (slugs_stay_unique calmEnv threeJobs (by decide) (by decide)).2.1 2
      (some (slugUpdate (.str "z")))
      (by intro u v hu hv; cases hu; cases hv; decide),
    ((slugs_stay_unique calmEnv threeJobs (by decide) (by decide)).2.2 2
      (slugUpdate (.str "a")) (.str "a") rfl
      (by decide) ⟨exampleJob 1 "a" 0, by decide, rfl, by decide⟩).1⟩

/-- C5 as stated fails: an update that sets a slug held by another job is answered 500, not
400, when the network simulator rejects; and an update whose slug is falsy skips the
uniqueness check: with the slug `''` held by job 1, the update of job 2 with the body
`{ slug: '' }` is applied and two jobs end with the same slug; so it is with the slug `0`. -/
theorem update_slug_counterexample :
    ((updateJob stormEnv 2 (some (slugUpdate (.str "a"))) threeJobs).1 =
        .ok ⟨500, .message "Failed to update job: Simulated network error"⟩) ∧
      (SlugsUnique emptySlugJobs.jobs ∧
        ((updateJob calmEnv 2 (some (slugUpdate (.str ""))) emptySlugJobs).2.jobs.map Job.slug =
          [some (.str ""), some (.str "")]) ∧
        ¬ SlugsUnique (updateJob calmEnv 2 (some (slugUpdate (.str ""))) emptySlugJobs).2.jobs) ∧
      (SlugsUnique zeroSlugJobs.jobs ∧
        ((updateJob calmEnv 2 (some (slugUpdate (.num 0))) zeroSlugJobs).2.jobs.map Job.slug =
          [some (.num 0), some (.num 0)]) ∧
        ¬ SlugsUnique (updateJob calmEnv 2 (some (slugUpdate (.num 0))) zeroSlugJobs).2.jobs) := by
  with_unfolding_all decide

theorem updateCandidate_timeline_witness :
    (updateCandidate calmEnv 1 (some (stageUpdate (.str "screen"))) oneCandidate).1 =
        .ok ⟨200, .candidate { ada with stage := .str "screen", updatedAt := 1000 }
          (some (exampleJob 1 "a" 0))⟩ ∧
      ∃ e, (updateCandidate calmEnv 1 (some (stageUpdate (.str "screen")))
          oneCandidate).2.candidateTimeline
          = oneCandidate.candidateTimeline ++ [e] ∧ e.candidateId = 1 ∧
            e.stage = .str "screen" :=
  ⟨by with_unfolding_all decide,
    (updateCandidate_timeline calmEnv 1 (stageUpdate (.str "screen")) oneCandidate ada
      ⟨200, .candidate { ada with stage := .str "screen", updatedAt := 1000 }
        (some (exampleJob 1 "a" 0))⟩
      (by decide) (by with_unfolding_all decide) rfl).1 (.str "screen") rfl (by decide)
      (by decide)⟩

/-- C6 fails on the code: the candidate has the stage `applied`, and the request
`PATCH /api/candidates/1` carries the body `{ stage: '' }`, a stage field whose value differs
from the prior stage; the update succeeds (status 200), the stage of the stored candidate
changes to `''`, and no timeline entry is appended. -/
theorem empty_stage_appends_nothing :
    ada.stage = .str "applied" ∧ (stageUpdate (.str "")).stage = some (.str "") ∧
      (updateCandidate calmEnv 1 (some (stageUpdate (.str ""))) oneCandidate).1 =
        .ok ⟨200, .candidate { ada with stage := .str "", updatedAt := 1000 }
          (some (exampleJob 1 "a" 0))⟩ ∧
      (updateCandidate calmEnv 1 (some (stageUpdate (.str ""))) oneCandidate).2.candidates =
        [{ ada with stage := .str "", updatedAt := 1000 }] ∧
      (updateCandidate calmEnv 1 (some (stageUpdate (.str ""))) oneCandidate).2.candidateTimeline
        = oneCandidate.candidateTimeline := by
  with_unfolding_all decide

theorem getJobs_page_witness :
    IsSortField pageTwoOfTen "order" ∧
      (dbJobsQuery calmEnv 0 pageTwoOfTen twentyFiveJobs).1 = .ok twentyFiveJobs.jobs ∧
      getJobs calmEnv pageTwoOfTen twentyFiveJobs =
        (.ok ⟨200, .jobPage ((twentyFiveJobs.jobs.take 20).drop 10) 2 10 25 (some 3)⟩,
          twentyFiveJobs) := by
  have hf : IsSortField pageTwoOfTen "order" := Or.inr ⟨Or.inl rfl, rfl⟩
  have hL : (dbJobsQuery calmEnv 0 pageTwoOfTen twentyFiveJobs).1 = .ok twentyFiveJobs.jobs := by
    with_unfolding_all decide
  obtain ⟨⟨tp, h, hlo, hhi⟩, _⟩ :=
    (getJobs_page calmEnv pageTwoOfTen twentyFiveJobs 2 10 "order" rfl rfl
      (by decide) (by decide) hf).1 twentyFiveJobs.jobs hL
  have hlen : twentyFiveJobs.jobs.length = 25 := by decide
  rw [hlen] at hlo hhi h
  have htp : tp = 3 := by omega
  subst htp
  exact ⟨hf, hL, h⟩

/-- C7 as stated fails: with `page = 1` and `pageSize = 10`, the request `sort=updatedAt`
names a field on which the job table has no index; the traversal rejects and list-jobs
returns no page, on a store of three jobs. -/
theorem getJobs_unindexed_sort_rejects :
    sortByUpdatedAt.page = some 1 ∧ sortByUpdatedAt.pageSize = some 10 ∧
      threeJobs.jobs.length = 3 ∧
      (getJobs calmEnv sortByUpdatedAt threeJobs).1 =
        .error "KeyPath updatedAt on object store jobs is not indexed" := by
  with_unfolding_all decide

/-- C8 as stated fails: a job was stored without a title, the search predicate of list-jobs
throws on it, and the error escapes the handler: no response, no status 500. -/
theorem getJobs_error_escapes :
    untitledStore.jobs.map Job.title = [none] ∧
      (getJobs calmEnv searchEngineer untitledStore).1 =
        .error "Cannot read properties of undefined (reading 'toLowerCase')" := by
  with_unfolding_all decide

/-- C9 fails on the code: each job of the store has one assessment; the request
`PUT /api/assessments/1` with a body that carries `jobId: 2` updates the assessment of job 1,
and the merge of the body overwrites its `jobId`: job 2 ends with two assessments and the
assessment returned has `jobId` 2, not 1. -/
theorem putAssessment_overwrites_jobId :
    (twoAssessments.assessments.map Assessment.jobId).Nodup ∧
      (putAssessment calmEnv 1 (some assessmentForJobTwo) twoAssessments).2.assessments.map
          (fun a => (a.id, a.jobId)) = [(1, 2), (2, 2)] ∧
      (putAssessment calmEnv 1 (some assessmentForJobTwo) twoAssessments).1 =
        .ok ⟨200, .assessment (some ⟨1, 2, some "Quiz", none, some 0, some 1000⟩)⟩ := by
  with_unfolding_all decide

theorem seed_timeline_of_candidate_witness :
    ([seedGrace][0]? = some seedGrace ∧ (bulkAddKeys [] 1)[0]? = some 1 ∧
        stages[2]? = some seedGrace.stage) ∧
      (seedTimelines [] [seedGrace]).filter (fun e => e.candidateId = 1) =
        [⟨1, "applied", 5000, "Application submitted via careers page"⟩,
         ⟨1, "screen", 86405000, "Initial screening completed"⟩,
         ⟨1, "tech", 172805000, "Technical interview scheduled"⟩] ∧
      ((seedTimelines [] [seedGrace]).filter (fun e => e.candidateId = 1)).length = 2 + 1 :=
  ⟨⟨rfl, rfl, rfl⟩, by decide,
    (seed_timeline_of_candidate [] [seedGrace] 0 2 1 seedGrace rfl rfl rfl).1⟩

theorem handlers_catch_or_escape_witness :
    StoreDown downEnv ∧
      (∃ m, (createJob downEnv (some duplicateSlugData) threeJobs).1 = .ok ⟨500, m⟩) ∧
      (∃ e, (getJobs downEnv pageTwoOfTen threeJobs).1 = .error e) :=
  ⟨fun _ => rfl,
    (handlers_catch_or_escape downEnv).1.2.2.1 (fun _ => rfl) (some duplicateSlugData) threeJobs,
    ((handlers_catch_or_escape downEnv).2.2.2.2.2.2.2.1 pageTwoOfTen).2 (fun _ => rfl) threeJobs⟩

/-! ## Probability that the network simulator rejects

The law of a pair of independent draws, each uniform on `[0,1)`, is the product of the
Lebesgue measure restricted to `[0,1)` with itself. -/

theorem rejectingDraws_eq : rejectingDraws = Set.Iio (1 / 10 : ℝ) ×ˢ Set.Ioi (7 / 10 : ℝ) := by
  ext p
  simp [rejectingDraws, simulateNetworkDelay.rejects]

theorem uniform_below_tenth :
    (MeasureTheory.volume.restrict (Set.Ico (0 : ℝ) 1)) (Set.Iio (1 / 10 : ℝ)) =
      ENNReal.ofReal (1 / 10) := by
  rw [MeasureTheory.Measure.restrict_apply measurableSet_Iio]
  have hset : Set.Iio (1 / 10 : ℝ) ∩ Set.Ico 0 1 = Set.Ico 0 (1 / 10) := by
    ext x
    simp only [Set.mem_inter_iff, Set.mem_Iio, Set.mem_Ico]
    constructor
    · rintro ⟨h1, h2, _⟩; exact ⟨h2, h1⟩
    · rintro ⟨h1, h2⟩; exact ⟨h2, h1, by linarith⟩
  rw [hset, Real.volume_Ico]
  norm_num

theorem uniform_above_seven_tenths :
    (MeasureTheory.volume.restrict (Set.Ico (0 : ℝ) 1)) (Set.Ioi (7 / 10 : ℝ)) =
      ENNReal.ofReal (3 / 10) := by
  rw [MeasureTheory.Measure.restrict_apply measurableSet_Ioi]
  have hset : Set.Ioi (7 / 10 : ℝ) ∩ Set.Ico 0 1 = Set.Ioo (7 / 10) 1 := by
    ext x
    simp only [Set.mem_inter_iff, Set.mem_Ioi, Set.mem_Ico, Set.mem_Ioo]
    constructor
    · rintro ⟨h1, _, h3⟩; exact ⟨h1, h3⟩
    · rintro ⟨h1, h2⟩; exact ⟨h1, by linarith, h2⟩
  rw [hset, Real.volume_Ioo]
  norm_num

theorem measure_rejectingDraws :
    ((MeasureTheory.volume.restrict (Set.Ico (0 : ℝ) 1)).prod
      (MeasureTheory.volume.restrict (Set.Ico (0 : ℝ) 1))) rejectingDraws =
        ENNReal.ofReal (3 / 100) := by
  rw [rejectingDraws_eq, MeasureTheory.Measure.prod_prod, uniform_below_tenth,
    uniform_above_seven_tenths, ← ENNReal.ofReal_mul (by norm_num)]
  norm_num

theorem measure_all_draws :
    ((MeasureTheory.volume.restrict (Set.Ico (0 : ℝ) 1)).prod
      (MeasureTheory.volume.restrict (Set.Ico (0 : ℝ) 1))) Set.univ = 1 := by
  rw [← Set.univ_prod_univ, MeasureTheory.Measure.prod_prod,
    MeasureTheory.Measure.restrict_apply MeasurableSet.univ, Set.univ_inter, Real.volume_Ico]
  norm_num

/-- The rational draws of an environment reject exactly when they do as real numbers. -/
theorem rejects_cast (q₂ q₃ : ℚ) :
    simulateNetworkDelay.rejects (q₂ : ℝ) (q₃ : ℝ) = simulateNetworkDelay.rejects q₂ q₃ := by
  unfold simulateNetworkDelay.rejects
  have h1 : ((q₂ : ℝ) < 1 / 10) ↔ (q₂ < 1 / 10) := by
    have hc : ((1 / 10 : ℚ) : ℝ) = 1 / 10 := by norm_num
    rw [← hc]; exact Rat.cast_lt
  have h2 : ((q₃ : ℝ) > 7 / 10) ↔ (q₃ > 7 / 10) := by
    have hc : ((7 / 10 : ℚ) : ℝ) = 7 / 10 := by norm_num
    rw [gt_iff_lt, gt_iff_lt, ← hc]; exact Rat.cast_lt
  simp only [h1, h2]

/-- C11 (amended): with the two draws independent and uniform on `[0,1)`, the set of pairs of
draws on which `simulateNetworkDelay` rejects is `{u₂ < 0.1} × {u₃ > 0.7}` and has measure
`0.1 × 0.3 = 0.03` (of a total measure 1): the simulator rejects with probability 3%; on
those pairs it rejects with the network-error signal, on every other pair it resolves. -/
theorem simulateNetworkDelay_rejects_three_percent :
    rejectingDraws = Set.Iio (1 / 10 : ℝ) ×ˢ Set.Ioi (7 / 10 : ℝ) ∧
    ((MeasureTheory.volume.restrict (Set.Ico (0 : ℝ) 1)).prod
      (MeasureTheory.volume.restrict (Set.Ico (0 : ℝ) 1))) rejectingDraws =
        ENNReal.ofReal (3 / 100) ∧
    ((MeasureTheory.volume.restrict (Set.Ico (0 : ℝ) 1)).prod
      (MeasureTheory.volume.restrict (Set.Ico (0 : ℝ) 1))) Set.univ = 1 ∧
    (∀ (env : Env) (s : Store),
      (((env.errorDraw : ℝ), (env.retryDraw : ℝ)) ∈ rejectingDraws →
        simulateNetworkDelay env s = (.error "Simulated network error", s)) ∧
      (((env.errorDraw : ℝ), (env.retryDraw : ℝ)) ∉ rejectingDraws →
        simulateNetworkDelay env s = (.ok (), s))) := by
  refine ⟨rejectingDraws_eq, measure_rejectingDraws, measure_all_draws, ?_⟩
  intro env s
  constructor
  · intro h
    have h' : simulateNetworkDelay.rejects env.errorDraw env.retryDraw = true := by
      rw [← rejects_cast]; exact h
    simp [simulateNetworkDelay, h']
  · intro h
    have h' : ¬ simulateNetworkDelay.rejects env.errorDraw env.retryDraw = true := by
      rw [← rejects_cast]; exact h
    simp [simulateNetworkDelay, h']

theorem simulateNetworkDelay_rejects_three_percent_witness :
    ((stormEnv.errorDraw : ℝ), (stormEnv.retryDraw : ℝ)) ∈ rejectingDraws ∧
      simulateNetworkDelay stormEnv emptyStore =
        (.error "Simulated network error", emptyStore) := by
  have h : ((stormEnv.errorDraw : ℝ), (stormEnv.retryDraw : ℝ)) ∈ rejectingDraws := by
    show simulateNetworkDelay.rejects (stormEnv.errorDraw : ℝ) (stormEnv.retryDraw : ℝ) = true
    rw [rejects_cast]
    with_unfolding_all decide
  exact ⟨h, (simulateNetworkDelay_rejects_three_percent.2.2.2 stormEnv emptyStore).1 h⟩

/-- C11 as stated fails: the set of pairs of draws on which the simulator rejects has measure
0.03, which is not 0.07; the pair (0.05, 0.5), with the first draw below 0.1 and the second
below 0.7, is one on which it resolves. -/
theorem simulateNetworkDelay_not_seven_percent :
    ((MeasureTheory.volume.restrict (Set.Ico (0 : ℝ) 1)).prod
      (MeasureTheory.volume.restrict (Set.Ico (0 : ℝ) 1))) rejectingDraws ≠
        ENNReal.ofReal (7 / 100) ∧
    simulateNetworkDelay.rejects (1 / 20 : ℚ) (1 / 2 : ℚ) = false := by
  constructor
  · rw [measure_rejectingDraws]
    intro h
    have h' := (ENNReal.ofReal_eq_ofReal_iff (by norm_num) (by norm_num)).1 h
    norm_num at h'
  · with_unfolding_all decide


end TalentFlow
